import Mathlib

/-!
# subslicer: control channel, shared region, jail, worker pool and dispatcher

A shallow embedding of `control_conn.go`, `shmem.go`, `freezer/freezer.go`, the
`Function` and `FunctionPool` of `function.go` and the request handler and purge
trigger of `cmd/local-lambda-server/main.go`, followed by the properties proved
about them.

Conventions of the embedding:

* a Go `[]byte` / `string` is a `List (Fin 256)`;
* a Go `map[string]string` is `Option StrMap`: `none` is the nil map and
  `some m` an allocated map, `StrMap` being Mathlib's finite maps;
* a run-time panic (slice bounds out of range) is an explicit result;
* the socket is a list of pending read results and a log of written
  datagrams; a read on an empty list never returns (`blocked`).
-/

namespace Subslicer

/-! ## Bytes and fixed-width integers -/

abbrev Byte := Fin 256

abbrev Bytes := List Byte

/-- The byte holding the low eight bits of `n` (Go `byte(n)`). -/
def toByte (n : Nat) : Byte := ⟨n % 256, Nat.mod_lt _ (by decide)⟩

/-- Go `binary.BigEndian.Uint32(b)`; `none` when `b` is shorter than four bytes. -/
def beUint32 : Bytes → Option Nat
  | b0 :: b1 :: b2 :: b3 :: _ =>
      some (b0.val * 2 ^ 24 + b1.val * 2 ^ 16 + b2.val * 2 ^ 8 + b3.val)
  | _ => none

/-- The four bytes `binary.BigEndian.PutUint32` stores for the `uint32` value `v % 2^32`. -/
def bePutUint32 (v : Nat) : Bytes :=
  [toByte (v / 2 ^ 24), toByte (v / 2 ^ 16), toByte (v / 2 ^ 8), toByte v]

/-- Go `copy(dst[off:], src)` for `off ≤ len(dst)`: overwrite `dst` from `off` with as many
bytes of `src` as fit; the length of `dst` is unchanged. -/
def copyAt (dst : Bytes) (off : Nat) (src : Bytes) : Bytes :=
  dst.take off ++ src.take (dst.length - off) ++ dst.drop (off + src.length)

/-- Go `bytes.IndexByte(b, c)`: index of the first `c`, or `-1`. -/
def indexByte (b : Bytes) (c : Byte) : Int :=
  if c ∈ b then (b.indexOf c : Int) else -1

/-- Go `bytes.Split(s, []byte{0})`: the pieces of `s` between NUL bytes, one more than
the number of NULs. -/
def splitNul : Bytes → List Bytes
  | [] => [[]]
  | b :: bs =>
    if b = 0 then [] :: splitNul bs
    else
      match splitNul bs with
      | t :: ts => (b :: t) :: ts
      | [] => [[b]]

/-! ## control_conn.go -/

/-- A key/value entry of a `map[string]string`. -/
abbrev KV := Sigma (fun _ : Bytes => Bytes)

/-- An allocated `map[string]string`. -/
abbrev StrMap := Finmap (fun _ : Bytes => Bytes)

inductive state where
  | stateStarting
  | stateInitializing
  | stateReady
  | stateProcessing
  | stateFault
  | stateError
  deriving DecidableEq, Repr

open state

/-- The error values of `control_conn.go`, and `errSocket` for an error of the socket;
then the errors met outside the control channel: `errAlreadyStarted` of `Freezer.Start`,
`errClosed` for the use of a closed file (`os.ErrClosed`), `errShortWrite`
(`io.ErrShortWrite`) and `errSys` for an error of a system call. -/
inductive Err where
  | errControlFault
  | errUnknownCommand
  | errHandlerBusy
  | errInvalidMagic
  | errKVParserFailed
  | errSocket (code : Nat)
  | errAlreadyStarted
  | errClosed
  | errShortWrite
  | errSys (code : Nat)
  deriving DecidableEq, Repr

open Err

def magic : Nat := 0x47697244

/-- Command name "START" -/
def cmdStart : Bytes := [83, 84, 65, 82, 84]

/-- Command name "RUNNING" -/
def cmdRunning : Bytes := [82, 85, 78, 78, 73, 78, 71]

/-- Command name "DONE" -/
def cmdDone : Bytes := [68, 79, 78, 69]

/-- Command name "FAULT" -/
def cmdFault : Bytes := [70, 65, 85, 76, 84]

/-- Command name "INVOKE" -/
def cmdInvoke : Bytes := [73, 78, 86, 79, 75, 69]

/-- Command name "ERROR" -/
def cmdError : Bytes := [69, 82, 82, 79, 82]

/-- The body built by the `range` loop of `send`, for the iteration order `order`
of the map: `k 0 v 0` per entry. -/
def sendBody : List KV → Bytes
  | [] => []
  | p :: rest => p.1 ++ [0] ++ p.2 ++ [0] ++ sendBody rest

/-- The datagram `send` hands to `c.Write`, for the command `cmd` and the map whose
entries the `range` loop visits in the order `order`. -/
def send (cmd : Bytes) (order : List KV) : Bytes :=
  let body := sendBody order
  let msg : Bytes := List.replicate (16 + body.length) 0
  let msg := copyAt msg 0 (bePutUint32 magic)
  let msg := copyAt msg 4 (bePutUint32 (body.length % 2 ^ 32))
  let msg := copyAt msg 8 cmd
  copyAt msg 16 body

/-- Result of one `c.ReadFrom(msg)`: a datagram, or an error of the socket. -/
inductive ReadEv where
  | dgram (d : Bytes)
  | fail (code : Nat)
  deriving DecidableEq, Repr

/-- What `receive` does: returns `(cmd, args, nil)`, returns `("", nil, err)`, or
panics on an out-of-range slice. -/
inductive Recv where
  | ok (cmd : Bytes) (args : Option StrMap)
  | err (e : Err)
  | panic
  deriving DecidableEq

/-- Size of the buffer `receive` allocates: `make([]byte, 4096)`. -/
def recvBufSize : Nat := 4096

/-- The 4096-byte buffer of `receive` after `ReadFrom` has stored the datagram `d` in it
(a longer datagram is cut at 4096). -/
def recvBuf (d : Bytes) : Bytes :=
  copyAt (List.replicate recvBufSize 0) 0 d

/-- The loop `for i := 0; i < len(kv); i += 2 { args[kv[i]] = kv[i+1] }` on a list of
even length. -/
def fillArgs : List Bytes → StrMap → StrMap
  | k :: v :: rest, args => fillArgs rest (args.insert k v)
  | _, args => args

/-- The part of `receive` after `ReadFrom` has filled the buffer `msg`. -/
def decode (msg : Bytes) : Recv :=
  match beUint32 (msg.take 4) with
  | none => Recv.panic
  | some m =>
    if m ≠ magic then Recv.err errInvalidMagic
    else
      let fld := (msg.drop 8).take 8
      let e := indexByte fld 0
      -- cmd := string(msg[8 : 8+end])
      if e < 0 then Recv.panic
      else
        let cmd := fld.take e.toNat
        match beUint32 ((msg.drop 4).take 4) with
        | none => Recv.panic
        | some sz =>
          if 0 < sz then
            -- msg[16 : 16+sz], the sum taken in uint32
            let hi := (16 + sz) % 2 ^ 32
            if hi < 16 ∨ msg.length < hi then Recv.panic
            else
              let kv := splitNul ((msg.drop 16).take (hi - 16))
              let kv := kv.dropLast
              if kv.length % 2 ≠ 0 then Recv.err errKVParserFailed
              else Recv.ok cmd (some (fillArgs kv ∅))
          else Recv.ok cmd none

/-- Source: `ControlConn.receive`, given what `c.ReadFrom` yields. -/
def receive : ReadEv → Recv
  | ReadEv.fail code => Recv.err (errSocket code)
  | ReadEv.dgram d => decode (recvBuf d)

/-- The host side of the control socket: the control state, the error every `c.Write`
returns (if any), the datagrams written so far and the results of the coming
`c.ReadFrom` calls. -/
structure ControlConn where
  state : state
  werr : Option Nat
  sent : List Bytes
  inbox : List ReadEv
  deriving DecidableEq

/-- How a call of `init` or `Invoke` ends: it returns an error value (`none` is `nil`),
panics, or waits for ever in `ReadFrom`. -/
inductive Outcome where
  | ret (e : Option Err)
  | panic
  | blocked
  deriving DecidableEq, Repr

/-- The `for` loop of `ControlConn.init`, on the control state and the pending reads. -/
def initLoop : state → List ReadEv → Outcome × state × List ReadEv
  | st, [] => (Outcome.blocked, st, [])
  | st, ev :: rest =>
    match receive ev with
    | Recv.err e => (Outcome.ret (some e), st, rest)
    | Recv.panic => (Outcome.panic, st, rest)
    | Recv.ok cmd _ =>
      if cmd = cmdRunning then
        if st = stateStarting then initLoop stateInitializing rest
        else initLoop st rest
      else if cmd = cmdDone then
        if st = stateInitializing then (Outcome.ret none, stateReady, rest)
        else initLoop st rest
      else if cmd = cmdFault then (Outcome.ret (some errControlFault), st, rest)
      else (Outcome.ret (some errUnknownCommand), st, rest)

/-- Source: `ControlConn.init(args)`, `order` being the iteration order of `args` in `send`. -/
def ControlConn.init (c : ControlConn) (order : List KV) : Outcome × ControlConn :=
  match c.werr with
  | some code => (Outcome.ret (some (errSocket code)), c)
  | none =>
    let r := initLoop stateStarting c.inbox
    (r.1, { c with state := r.2.1, sent := c.sent ++ [send cmdStart order], inbox := r.2.2 })

/-- The `for` loop of `ControlConn.Invoke`, on the control state and the pending reads. -/
def invokeLoop : state → List ReadEv → Outcome × state × List ReadEv
  | st, [] => (Outcome.blocked, st, [])
  | st, ev :: rest =>
    match receive ev with
    | Recv.err e => (Outcome.ret (some e), st, rest)
    | Recv.panic => (Outcome.panic, st, rest)
    | Recv.ok cmd _ =>
      if cmd = cmdDone then
        if st = stateProcessing then (Outcome.ret none, stateReady, rest)
        else invokeLoop st rest
      else if cmd = cmdError then (Outcome.ret none, stateError, rest)
      else if cmd = cmdFault then (Outcome.ret none, stateFault, rest)
      else (Outcome.ret (some errUnknownCommand), st, rest)

/-- Source: `ControlConn.Invoke(ctx, args)`, `order` being the iteration order of `args` in `send`. -/
def ControlConn.Invoke (c : ControlConn) (order : List KV) : Outcome × ControlConn :=
  if c.state ≠ stateReady then (Outcome.ret (some errHandlerBusy), c)
  else
    match c.werr with
    | some code => (Outcome.ret (some (errSocket code)), c)
    | none =>
      let r := invokeLoop stateProcessing c.inbox
      (r.1, { c with state := r.2.1, sent := c.sent ++ [send cmdInvoke order], inbox := r.2.2 })

/-! ## shmem.go -/

def shmemSize : Nat := 6394536

def bodyMax : Nat := 6291556

def bodyBegin : Nat := 8

def bodyEnd : Nat := 8 + bodyMax

def debugMax : Nat := 102968

def debugBegin : Nat := 8 + bodyMax

def debugEnd : Nat := 8 + bodyMax + debugMax

/-- The shared region: `mmap i` is the byte at offset `i < shmemSize` of the mapping,
`off` the write cursor (a Go `int`). -/
structure shmem where
  mmap : Nat → Byte
  off : Int

/-- A sub-slice `mmap[lo:hi]` of the mapping. -/
structure Slice where
  lo : Nat
  hi : Nat
  deriving DecidableEq, Repr

/-- Go `binary.LittleEndian.Uint32(mmap[i:])`. -/
def leUint32 (m : Nat → Byte) (i : Nat) : Nat :=
  (m i).val + (m (i + 1)).val * 2 ^ 8 + (m (i + 2)).val * 2 ^ 16 + (m (i + 3)).val * 2 ^ 24

/-- Go `binary.LittleEndian.PutUint32(mmap[i:i+4], v)` for the `uint32` value `v`. -/
def lePutUint32 (m : Nat → Byte) (i : Nat) (v : Nat) : Nat → Byte :=
  fun j =>
    if j = i then toByte v
    else if j = i + 1 then toByte (v / 2 ^ 8)
    else if j = i + 2 then toByte (v / 2 ^ 16)
    else if j = i + 3 then toByte (v / 2 ^ 24)
    else m j

/-- Source: `shmem.Reset`. -/
def shmem.Reset (s : shmem) : shmem :=
  { mmap := lePutUint32 (lePutUint32 s.mmap 0 0) 4 0, off := 0 }

/-- Source: `shmem.Write(data)`: `none` is a panic of the slice expression
`s.mmap[bodyBegin+s.off:bodyEnd]`, otherwise the returned count and the new region. -/
def shmem.Write (s : shmem) (data : Bytes) : Option (Nat × shmem) :=
  let lo := (bodyBegin : Int) + s.off
  if lo < 0 ∨ (bodyEnd : Int) < lo then none
  else
    let lo := lo.toNat
    let n := min (bodyEnd - lo) data.length
    let m1 : Nat → Byte := fun j => if lo ≤ j ∧ j < lo + n then data.getD (j - lo) 0 else s.mmap j
    let off := s.off + (n : Int)
    some (n, { mmap := lePutUint32 m1 0 (off % 2 ^ 32).toNat, off := off })

/-- Source: `shmem.Debug()`: the bounds of the returned slice, `none` for a panic. The sum is
computed in `uint32`. -/
def shmem.Debug (s : shmem) : Option Slice :=
  let e := (debugBegin + leUint32 s.mmap 4) % 2 ^ 32
  let e := if e > debugEnd then debugEnd else e
  if debugBegin ≤ e ∧ e ≤ shmemSize then some ⟨debugBegin, e⟩ else none

/-- Source: `shmem.Response()`: the bounds of the returned slice, `none` for a panic. The sum is
computed in `uint32`. -/
def shmem.Response (s : shmem) : Option Slice :=
  let e := (bodyBegin + leUint32 s.mmap debugEnd) % 2 ^ 32
  let e := if e > bodyEnd then bodyEnd else e
  if bodyBegin ≤ e ∧ e ≤ shmemSize then some ⟨bodyBegin, e⟩ else none

/-- The loop `for bp := 1; bp < len(mmap); bp *= 2 { copy(mmap[bp:], mmap[:bp]) }` of
`NewShmem`, entered with the loop variable at `bp`. -/
def zeroLoop (mmap : Bytes) (bp : Nat) (hbp : 0 < bp) : Bytes :=
  if bp < mmap.length then
    zeroLoop (copyAt mmap bp (mmap.take bp)) (bp * 2) (by omega)
  else mmap
termination_by mmap.length - bp
decreasing_by
  simp only [copyAt, List.length_append, List.length_take, List.length_drop]
  omega

/-- The zeroing of `NewShmem`: `mmap[0] = 0` followed by the doubling loop; `none` is the
index panic on an empty mapping. -/
def zeroFill : Bytes → Option Bytes
  | [] => none
  | _ :: t => some (zeroLoop (0 :: t) 1 Nat.one_pos)

/-! ## function.go: FunctionPool -/

/-- The pool of workers of type `F`: the free list (top of the stack last), and two logs
of what the pool has done: how often it called the factory `New`, and which workers it
closed, in order. -/
structure FunctionPool (F : Type) where
  freeFunction : List F
  newCalls : Nat
  closed : List F

/-- Source: `FunctionPool.Get`; `New k` is what the factory returns at its call number `k`. -/
def FunctionPool.Get {F : Type} (New : Nat → Except Err F) (p : FunctionPool F) :
    Option (Except Err F) × FunctionPool F :=
  let n := p.freeFunction.length
  if 0 < n then
    match p.freeFunction[n - 1]? with
    | some f => (some (Except.ok f), { p with freeFunction := p.freeFunction.take (n - 1) })
    | none => (none, p)
  else (some (New p.newCalls), { p with newCalls := p.newCalls + 1 })

/-- Source: `FunctionPool.Put`. -/
def FunctionPool.Put {F : Type} (p : FunctionPool F) (f : F) : FunctionPool F :=
  { p with freeFunction := p.freeFunction ++ [f] }

/-- The loop `for n := len(p.freeFunction); n > 0; n--` of `Purge`, started at `n`;
`Close f` is what `f.Close()` returns. -/
def purgeLoop {F : Type} (Close : F → Option Err) : Nat → FunctionPool F → Outcome × FunctionPool F
  | 0, p => (Outcome.ret none, p)
  | n + 1, p =>
    match p.freeFunction[n]? with
    | none => (Outcome.panic, p)
    | some f =>
      let p1 := { p with freeFunction := p.freeFunction.take n, closed := p.closed ++ [f] }
      match Close f with
      | some e => (Outcome.ret (some e), p1)
      | none => purgeLoop Close n p1

/-- Source: `FunctionPool.Purge`. -/
def FunctionPool.Purge {F : Type} (Close : F → Option Err) (p : FunctionPool F) :
    Outcome × FunctionPool F :=
  purgeLoop Close p.freeFunction.length p

/-! ## freezer/freezer.go -/

/-- A file the host holds open, `*os.File` or `*memfd.Memfd`: its descriptor, whether it
has been closed, the error the close and write system calls return (if any) and the
strings written to it so far. -/
structure File where
  fd : Nat
  closed : Bool
  closeErr : Option Nat
  writeErr : Option Nat
  written : List String
  deriving DecidableEq, Repr

/-- Go `(*os.File).Close`: a second close fails with `os.ErrClosed`; the first one closes
the file, whatever the system call returns. -/
def File.Close (h : File) : Option Err × File :=
  if h.closed then (some errClosed, h)
  else (h.closeErr.map errSys, { h with closed := true })

/-- Go `(*os.File).WriteString`: fails with `os.ErrClosed` on a closed file. -/
def File.WriteString (h : File) (str : String) : Option Err × File :=
  if h.closed then (some errClosed, h)
  else
    match h.writeErr with
    | some code => (some (errSys code), h)
    | none => (none, { h with written := h.written ++ [str] })

/-- What a worker does to the host, for the order of the steps of `Close`. -/
inductive Step where
  | thaw
  | freeze
  | closeConfig
  | closeWrapper
  | closeState
  | closeNsjail
  | removeDir
  | closeShmem
  | closeControl
  | kill
  deriving DecidableEq, Repr

/-- Go `(*os.File).Fd`: the descriptor, and `^uintptr(0)` once the file is closed. -/
def File.Fd (h : File) : Nat :=
  if h.closed then 2 ^ 64 - 1 else h.fd

/-- The process that `f.Cmd.Start()` creates: its pid, the executable, the argument
vector, the environment and the working directory it is started with. -/
structure Child where
  pid : Nat
  path : String
  argv : List String
  env : List String
  dir : String
  deriving DecidableEq, Repr

/-- What a child inherits from the host process: `os.Environ()` and the current
directory. -/
structure Host where
  environ : List String
  cwd : String
  deriving DecidableEq, Repr

/-- The struct `Freezer` with the fields of the embedded `exec.Cmd` that `freezer.go`
uses. `Env` is `none` for a nil slice; `Process` is the started child; `hostPid` is
`os.Getpid()`; `dirRemoved` says that the cgroup directory has been removed; `trace`
logs the steps taken, in order. -/
structure Freezer where
  Path : String
  Args : List String
  Env : Option (List String)
  Dir : String
  ExtraFiles : List File
  Process : Option Child
  Name : String
  Chroot : String
  nsjail : File
  wrapper : File
  config : File
  state : File
  freezerDir : String
  dirRemoved : Bool
  hostPid : Nat
  trace : List Step
  deriving DecidableEq, Repr

/-- The fields of `nsjailpb.MountPt` that `configure` sets. -/
structure MountPt where
  src : String
  dst : String
  isBind : Bool
  rw : Bool
  isDir : Bool
  deriving DecidableEq, Repr

/-- The fields of `nsjailpb.NsJailConfig` that `configure` sets. -/
structure NsJailConfig where
  mount : List MountPt
  uidmap : List (String × String)
  gidmap : List (String × String)
  cwd : String
  mountProc : Bool
  envar : List String
  passFd : List Int
  hostname : String
  logLevel : String
  rlimitAsType : String
  rlimitFsizeType : String
  cloneNewnet : Bool
  deriving DecidableEq, Repr

/-- What the operating system hands to `NewSandboxContext`: the cgroup directory, the
opened `freezer.state` file and the three memory files. -/
structure Resources where
  hostPid : Nat
  freezerDir : String
  state : File
  config : File
  nsjail : File
  wrapper : File
  deriving DecidableEq, Repr

/-- Source: `procPath`: `fmt.Sprintf("/proc/%d/fd/%d", os.Getpid(), f.Fd())`. -/
def procPath (pid : Nat) (h : File) : String :=
  "/proc/" ++ toString pid ++ "/fd/" ++ toString h.Fd

/-- Go `int32(x)` of an unsigned value. -/
def toInt32 (n : Nat) : Int :=
  if n % 2 ^ 32 < 2 ^ 31 then ((n % 2 ^ 32 : Nat) : Int) else ((n % 2 ^ 32 : Nat) : Int) - 2 ^ 32

/-- Source: `NewFreezer(name, arg...)`, that is `NewSandboxContext` with the background
context; `res` is the outcome of its system calls, the first failure being returned.
`exec.CommandContext(ctx, "/dev/null", arg...)` sets `Path` and `Args` and leaves `Env`
nil. -/
def NewFreezer (res : Except Err Resources) (name : String) (arg : List String) :
    Except Err Freezer :=
  match res with
  | Except.error e => Except.error e
  | Except.ok r =>
    Except.ok
      { Path := "/dev/null", Args := "/dev/null" :: arg, Env := none, Dir := "",
        ExtraFiles := [], Process := none, Name := name, Chroot := "",
        nsjail := r.nsjail, wrapper := r.wrapper, config := r.config, state := r.state,
        freezerDir := r.freezerDir, dirRemoved := false, hostPid := r.hostPid, trace := [] }

/-- Source: `configure`, the default of the field `Configure`: it fills in `Chroot` and
`Dir` when empty and builds the configuration from the jail. -/
def configure (f : Freezer) : NsJailConfig × Freezer :=
  let f1 := if f.Chroot = "" then { f with Chroot := "/" } else f
  let f2 := if f1.Dir = "" then { f1 with Dir := "/" } else f1
  ({ mount := [⟨f2.Chroot, "/", true, false, true⟩,
               ⟨"/dev/urandom", "/dev/urandom", true, false, false⟩],
     uidmap := [("root", "nobody")],
     gidmap := [("root", "nogroup")],
     cwd := f2.Dir,
     mountProc := true,
     envar := f2.Env.getD [],
     passFd := f2.ExtraFiles.map (fun h => toInt32 h.Fd),
     hostname := "freezer",
     logLevel := "WARNING",
     rlimitAsType := "INF",
     rlimitFsizeType := "INF",
     cloneNewnet := false }, f2)

/-- Source: `Freezer.Freeze`. -/
def Freezer.Freeze (f : Freezer) : Option Err × Freezer :=
  let r := f.state.WriteString "FROZEN"
  (r.1, { f with state := r.2, trace := f.trace ++ [Step.freeze] })

/-- Source: `Freezer.Thaw`. -/
def Freezer.Thaw (f : Freezer) : Option Err × Freezer :=
  let r := f.state.WriteString "THAWED"
  (r.1, { f with state := r.2, trace := f.trace ++ [Step.thaw] })

/-- Source: `Freezer.Start`. `Configure` is the field of that name, `marshal` the text
form `proto.MarshalText` writes to the configuration file, and `spawn` what
`f.Cmd.Start()` yields: the pid of the child or an error. As `os/exec` documents, the
child gets the environment of the host when `Env` is nil and the directory of the host
when `Dir` is empty. -/
def Freezer.Start (Configure : Freezer → NsJailConfig × Freezer) (marshal : NsJailConfig → String)
    (host : Host) (spawn : Except Err Nat) (f : Freezer) : Outcome × Freezer :=
  if f.Process.isSome then (Outcome.ret (some errAlreadyStarted), f)
  else
    let c := Configure f
    let w := c.2.config.WriteString (marshal c.1)
    let f1 := { c.2 with config := w.2 }
    match w.1 with
    | some e => (Outcome.ret (some e), f1)
    | none =>
      match f1.Args with
      | [] => (Outcome.panic, f1)
      | _ :: rest =>
        let f2 := { f1 with
          Args := ["nsjail", "--quiet", "--config", procPath f1.hostPid f1.config, "--",
            f1.Name] ++ rest,
          Path := procPath f1.hostPid f1.wrapper,
          Dir := "",
          Env := none }
        match spawn with
        | Except.error e => (Outcome.ret (some e), f2)
        | Except.ok pid =>
          let child : Child :=
            ⟨pid, f2.Path, f2.Args, f2.Env.getD host.environ,
              if f2.Dir = "" then host.cwd else f2.Dir⟩
          (Outcome.ret none, { f2 with Process := some child })

/-- The update `if err2 != nil { err = err2 }`. -/
def lastErr (err err2 : Option Err) : Option Err :=
  match err2 with
  | some e => some e
  | none => err

/-- The call `f.config.Close()` of `Freezer.Close`. -/
def Freezer.closeConfig (f : Freezer) : Option Err × Freezer :=
  let r := f.config.Close
  (r.1, { f with config := r.2, trace := f.trace ++ [Step.closeConfig] })

/-- The call `f.wrapper.Close()` of `Freezer.Close`. -/
def Freezer.closeWrapper (f : Freezer) : Option Err × Freezer :=
  let r := f.wrapper.Close
  (r.1, { f with wrapper := r.2, trace := f.trace ++ [Step.closeWrapper] })

/-- The call `f.state.Close()` of `Freezer.Close`. -/
def Freezer.closeState (f : Freezer) : Option Err × Freezer :=
  let r := f.state.Close
  (r.1, { f with state := r.2, trace := f.trace ++ [Step.closeState] })

/-- The call `f.nsjail.Close()` of `Freezer.Close`. -/
def Freezer.closeNsjail (f : Freezer) : Option Err × Freezer :=
  let r := f.nsjail.Close
  (r.1, { f with nsjail := r.2, trace := f.trace ++ [Step.closeNsjail] })

/-- One `os.Remove(f.freezerDir)`, `rm` being the error it returns, if any. -/
def Freezer.removeDir (rm : Option Nat) (f : Freezer) : Option Err × Freezer :=
  (rm.map errSys,
    { f with dirRemoved := f.dirRemoved || rm.isNone, trace := f.trace ++ [Step.removeDir] })

/-- Source: `Freezer.Close`; `rm1` and `rm2` are the errors of the first and of the
second `os.Remove(f.freezerDir)`, if any. -/
def Freezer.Close (rm1 rm2 : Option Nat) (f : Freezer) : Option Err × Freezer :=
  let t := f.Thaw
  let err := lastErr none t.1
  -- files := []io.Closer{f.config, f.wrapper, f.state, f.nsjail}
  let c1 := t.2.closeConfig
  let err := lastErr err c1.1
  let c2 := c1.2.closeWrapper
  let err := lastErr err c2.1
  let c3 := c2.2.closeState
  let err := lastErr err c3.1
  let c4 := c3.2.closeNsjail
  let err := lastErr err c4.1
  let r1 := c4.2.removeDir rm1
  match r1.1 with
  | none => (err, r1.2)
  | some _ =>
    let r2 := r1.2.removeDir rm2
    match r2.1 with
    | some e3 => (some e3, r2.2)
    | none => (err, r2.2)

/-! ## function.go: Function -/

/-- The struct `Function`: the embedded jail, the shared region with its backing file,
the control connection with the state of its socket (closed or not, and the error of
its close), and the outcome of killing the process (`killErr`, and `killed` once a kill
has gone through). -/
structure Function where
  fz : Freezer
  shm : shmem
  shmFile : File
  control : ControlConn
  controlClosed : Bool
  controlCloseErr : Option Nat
  killed : Bool
  killErr : Option Nat

/-- Source: `shmem.Close`: `Munmap`, whose result is dropped, then the close of the
backing file. -/
def Function.closeShmem (f : Function) : Option Err × Function :=
  let r := f.shmFile.Close
  let fz := { f.fz with trace := f.fz.trace ++ [Step.closeShmem] }
  (r.1, { f with shmFile := r.2, fz := fz })

/-- The close of the control socket `f.control.Close()`: a second close fails. -/
def Function.closeControl (f : Function) : Option Err × Function :=
  let fz := { f.fz with trace := f.fz.trace ++ [Step.closeControl] }
  (if f.controlClosed then some errClosed else f.controlCloseErr.map errSocket,
    { f with controlClosed := true, fz := fz })

/-- The call `f.Process.Kill()` on a started process. -/
def Function.kill (f : Function) : Option Err × Function :=
  let fz := { f.fz with trace := f.fz.trace ++ [Step.kill] }
  (f.killErr.map errSys, { f with killed := f.killed || f.killErr.isNone, fz := fz })

/-- Source: `Function.Thaw`, promoted from the embedded jail. -/
def Function.Thaw (f : Function) : Option Err × Function :=
  let r := f.fz.Thaw
  (r.1, { f with fz := r.2 })

/-- Source: `Function.Close`; `none` is the panic of `f.Process.Kill()` on a jail that
was never started. -/
def Function.Close (rm1 rm2 : Option Nat) (f : Function) : Option (Option Err × Function) :=
  -- files := []io.Closer{f.Freezer, f.shmem, f.control}
  let a := f.fz.Close rm1 rm2
  let err := lastErr none a.1
  let b := Function.closeShmem { f with fz := a.2 }
  let err := lastErr err b.1
  let c := b.2.closeControl
  let err := lastErr err c.1
  match c.2.fz.Process with
  | none => none
  | some _ =>
    let k := c.2.kill
    let err := lastErr err k.1
    let t := k.2.Thaw
    let err := lastErr err t.1
    some (err, t.2)

/-- Source: `Function.Freeze`, promoted from the embedded jail. -/
def Function.Freeze (f : Function) : Option Err × Function :=
  let r := f.fz.Freeze
  (r.1, { f with fz := r.2 })

/-- Source: `Function.Invoke`: the control call with the argument map whose entries are
sent in the order `order`; the printed report lines are left out. -/
def Function.Invoke (f : Function) (order : List KV) : Outcome × Function :=
  let r := f.control.Invoke order
  (r.1, { f with control := r.2 })

/-- Source: `Function.Write`. -/
def Function.Write (f : Function) (data : Bytes) : Option (Nat × Function) :=
  match f.shm.Write data with
  | none => none
  | some r => some (r.1, { f with shm := r.2 })

/-- Source: `Function.Reset`. -/
def Function.Reset (f : Function) : Function :=
  { f with shm := f.shm.Reset }

/-! ## cmd/local-lambda-server/main.go: the handler of "/" -/

/-- Go `io.Copy(f, r.Body)`: `chunks` are the pieces the body yields, `rerr` the error
that ends it when it is not `io.EOF`; the result is the byte count, the error and the
worker, `none` a panic of `Write`. -/
def ioCopy : Function → List Bytes → Option Nat → Option (Nat × Option Err × Function)
  | f, [], rerr => some (0, rerr.map errSys, f)
  | f, c :: cs, rerr =>
    match f.Write c with
    | none => none
    | some (nw, f1) =>
      if nw < c.length then some (nw, some errShortWrite, f1)
      else
        match ioCopy f1 cs rerr with
        | none => none
        | some (n, e, f2) => some (nw + n, e, f2)

/-- How the handler answers: the response slice, a 500 with its reason, a panic (which
the HTTP server recovers), or never, when the control read blocks. -/
inductive Reply where
  | ok (resp : Slice)
  | status500 (reason : String)
  | copyFailed (e : Err)
  | panic
  | blocked
  deriving DecidableEq, Repr

/-- The body of the handler after `defer fp.Put(f)`: what it answers and the worker as
it leaves it. -/
def serve (order : List KV) (debug : Bool) (chunks : List Bytes) (rerr : Option Nat)
    (f : Function) : Reply × Function :=
  match ioCopy f chunks rerr with
  | none => (Reply.panic, f)
  | some (_, some e, f1) => (Reply.copyFailed e, f1)
  | some (n, none, f1) =>
    -- if n == 0 { f.Write([]byte("{}")) }
    match (if n = 0 then f1.Write [123, 125] else some (0, f1)) with
    | none => (Reply.panic, f1)
    | some (_, f2) =>
      match f2.Thaw with
      | (some _, f3) => (Reply.status500 "thaw failed", f3)
      | (none, f3) =>
        match f3.Invoke order with
        | (Outcome.panic, f4) => (Reply.panic, f4)
        | (Outcome.blocked, f4) => (Reply.blocked, f4)
        | (Outcome.ret (some _), f4) => (Reply.status500 "invoke failed", f4)
        | (Outcome.ret none, f4) =>
          match f4.Freeze with
          | (some _, f5) => (Reply.status500 "freeze failed", f5)
          | (none, f5) =>
            if debug = true ∧ f5.shm.Debug = none then (Reply.panic, f5)
            else
              match f5.shm.Response with
              | none => (Reply.panic, f5)
              | some resp => (Reply.ok resp, f5.Reset)

/-- The handler of "/" on the pool, one request at a time (the semaphore is left out).
`defer fp.Put(f)` runs on every return and on a panic; a handler that never returns
never puts the worker back. -/
def handle (New : Nat → Except Err Function) (order : List KV) (debug : Bool)
    (chunks : List Bytes) (rerr : Option Nat) (p : FunctionPool Function) :
    Reply × FunctionPool Function :=
  match FunctionPool.Get New p with
  | (none, p1) => (Reply.panic, p1)
  | (some (Except.error _), p1) => (Reply.status500 "function init failed", p1)
  | (some (Except.ok f), p1) =>
    let r := serve order debug chunks rerr f
    match r.1 with
    | Reply.blocked => (Reply.blocked, p1)
    | reply => (reply, p1.Put r.2)

/-! ## cmd/local-lambda-server/main.go: the purge trigger -/

/-- The purge loop at the top of an iteration, with time in milliseconds: the counter
`needsPurge`, the current time, the arrival times (ascending) of the purge signals not
yet received, and two logs: when `time.After` was called and when `fp.Purge()` was. -/
structure Debounce where
  needsPurge : Nat
  now : Nat
  pending : List Nat
  armed : List Nat
  purges : List Nat
  deriving DecidableEq, Repr

/-- One iteration of the `for` loop of the purge goroutine; `none` is a `select` that
waits for ever (no timer, no signal to come). The loop body and `fp.Purge()` take no
time. When a signal and the timer are ready at the same instant `select` may take
either; `signalFirst` says which. -/
def debounceIter (signalFirst : Bool) (d : Debounce) : Option Debounce :=
  if 0 < d.needsPurge then
    -- timerChan = time.After(200 * time.Millisecond)
    let d1 := { d with armed := d.armed ++ [d.now] }
    let fire : Debounce :=
      { d1 with needsPurge := 0, now := d.now + 200, purges := d.purges ++ [d.now + 200] }
    match d.pending with
    | [] => some fire
    | sig :: rest =>
      if sig < d.now + 200 ∨ (signalFirst = true ∧ sig = d.now + 200) then
        some { d1 with needsPurge := d.needsPurge + 1, now := max d.now sig, pending := rest }
      else some fire
  else
    -- timerChan = make(chan time.Time): never fires
    match d.pending with
    | [] => none
    | sig :: rest =>
      some { d with needsPurge := d.needsPurge + 1, now := max d.now sig, pending := rest }

/-- At most `n` iterations of the purge loop, stopping where it waits for ever. -/
def debounceRun (signalFirst : Bool) : Nat → Debounce → Debounce
  | 0, d => d
  | n + 1, d =>
    match debounceIter signalFirst d with
    | none => d
    | some d1 => debounceRun signalFirst n d1

/-! ## Vocabulary of the statements -/

/-- A file just opened, on which every system call succeeds. -/
def freshFile (fd : Nat) : File := ⟨fd, false, none, none, []⟩

/-- A jail that has been started as child 100 of process 77. -/
def sampleJail : Freezer :=
  { Path := "/proc/77/fd/6", Args := ["nsjail", "--quiet", "--config", "/proc/77/fd/4", "--",
      "/usr/bin/python"], Env := none, Dir := "", ExtraFiles := [],
    Process := some ⟨100, "/proc/77/fd/6", ["nsjail", "--quiet", "--config", "/proc/77/fd/4",
      "--", "/usr/bin/python"], ["HOME=/root"], "/srv"⟩,
    Name := "/usr/bin/python", Chroot := "/", nsjail := freshFile 5, wrapper := freshFile 6,
    config := freshFile 4, state := freshFile 3,
    freezerDir := "/sys/fs/cgroup/freezer/gofreezer1", dirRemoved := false, hostPid := 77,
    trace := [] }

/-- A worker as `NewFunction` returns it, in control state `Ready`, with a zeroed
shared region; `inbox` is what its runtime will send. -/
def sampleWorker (inbox : List ReadEv) : Function :=
  { fz := sampleJail, shm := ⟨fun _ => 0, 0⟩, shmFile := freshFile 7,
    control := ⟨stateReady, none, [], inbox⟩, controlClosed := false, controlCloseErr := none,
    killed := false, killErr := none }

/-- A factory whose workers answer the first INVOKE with ERROR. -/
def errorFactory : Nat → Except Err Function :=
  fun _ => Except.ok (sampleWorker [ReadEv.dgram (send cmdError [])])

/-- The control state and the last string written to the cgroup state file, for each
worker on a free list. -/
def poolView (p : FunctionPool Function) : List (state × Option String) :=
  p.freeFunction.map (fun f => (f.control.state, f.fz.state.written.getLast?))

/-- Resources as the system hands them to `NewSandboxContext` in process 77. -/
def sampleResources : Resources :=
  ⟨77, "/sys/fs/cgroup/freezer/gofreezer1", freshFile 3, freshFile 4, freshFile 5, freshFile 6⟩

/-- A host process with one environment variable, running in `/srv`. -/
def sampleHost : Host := ⟨["HOME=/root"], "/srv"⟩

/-- The entries of a Go map value: the nil map has none. -/
def entriesOf (a : Option StrMap) : StrMap := a.getD ∅


/-- The tokens `k₁, v₁, k₂, v₂, …` of a list of entries. -/
def kvTokens : List KV → List Bytes
  | [] => []
  | p :: rest => p.1 :: p.2 :: kvTokens rest

/-- The entries `(t₁, t₂), (t₃, t₄), …` of a list of tokens. -/
def pairUp : List Bytes → List KV
  | k :: v :: rest => ⟨k, v⟩ :: pairUp rest
  | _ => []

/-- The concatenation of the tokens, each followed by a NUL. -/
def nulTerminated : List Bytes → Bytes
  | [] => []
  | t :: ts => t ++ 0 :: nulTerminated ts

/-- A sequence of `Write` calls; `none` if one of them panics. -/
def shmem.Writes (s : shmem) : List Bytes → Option shmem
  | [] => some s
  | d :: ds =>
    match s.Write d with
    | none => none
    | some r => r.2.Writes ds

/-- Successive `Invoke` calls on one connection, with the outcome of each. -/
def ControlConn.Invokes (c : ControlConn) : List (List KV) → List Outcome × ControlConn
  | [] => ([], c)
  | order :: more =>
    let r := c.Invoke order
    let rs := r.2.Invokes more
    (r.1 :: rs.1, rs.2)

/-! ## Lemmas: byte strings -/

theorem beUint32_bePutUint32 (v : Nat) (h : v < 2 ^ 32) : beUint32 (bePutUint32 v) = some v := by
  simp only [beUint32, bePutUint32, toByte, Option.some.injEq]
  omega

theorem beUint32_take4 (a0 a1 a2 a3 : Byte) (t : Bytes) :
    beUint32 ((a0 :: a1 :: a2 :: a3 :: t).take 4)
      = some (a0.val * 2 ^ 24 + a1.val * 2 ^ 16 + a2.val * 2 ^ 8 + a3.val) := rfl

theorem copyAt_length (dst : Bytes) (off : Nat) (src : Bytes) (h : off ≤ dst.length) :
    (copyAt dst off src).length = dst.length := by
  simp only [copyAt, List.length_append, List.length_take, List.length_drop]
  omega

theorem copyAt_append (p q src : Bytes) (h : src.length ≤ q.length) :
    copyAt (p ++ q) p.length src = p ++ src ++ q.drop src.length := by
  simp only [copyAt, List.take_left', List.length_append, Nat.add_sub_cancel_left,
    List.take_of_length_le h, List.drop_append]

theorem recvBuf_length (d : Bytes) : (recvBuf d).length = recvBufSize := by
  simp [recvBuf, copyAt_length]

theorem recvBuf_eq (d : Bytes) (h : d.length ≤ recvBufSize) :
    recvBuf d = d ++ List.replicate (recvBufSize - d.length) 0 := by
  have := copyAt_append [] (List.replicate recvBufSize 0) d (by simpa using h)
  simpa [recvBuf] using this

theorem copyAt_zeros (p src : Bytes) (k : Nat) (h : src.length ≤ k) :
    copyAt (p ++ List.replicate k 0) p.length src
      = p ++ src ++ List.replicate (k - src.length) 0 := by
  rw [copyAt_append p _ src (by simpa using h), List.drop_replicate]

/-- The datagram built by `send` for a command of at most eight bytes: magic, body
length, the command padded with NULs to eight bytes, the body. -/
theorem send_eq (cmd : Bytes) (order : List KV) (hc : cmd.length ≤ 8) :
    send cmd order
      = bePutUint32 magic ++ bePutUint32 ((sendBody order).length % 2 ^ 32)
          ++ (cmd ++ List.replicate (8 - cmd.length) 0) ++ sendBody order := by
  have hM : (bePutUint32 magic).length = 4 := rfl
  have hS : (bePutUint32 ((sendBody order).length % 2 ^ 32)).length = 4 := rfl
  unfold send
  dsimp only
  generalize sendBody order = body at *
  generalize bePutUint32 (body.length % 2 ^ 32) = S at *
  generalize bePutUint32 magic = M at *
  have e1 : copyAt (List.replicate (16 + body.length) 0) 0 M
      = M ++ List.replicate (12 + body.length) 0 := by
    have h := copyAt_zeros [] M (16 + body.length) (by omega)
    rw [hM, show 16 + body.length - 4 = 12 + body.length by omega] at h
    simpa using h
  have e2 : copyAt (M ++ List.replicate (12 + body.length) 0) 4 S
      = M ++ S ++ List.replicate (8 + body.length) 0 := by
    have h := copyAt_zeros M S (12 + body.length) (by omega)
    rw [hM, hS, show 12 + body.length - 4 = 8 + body.length by omega] at h
    exact h
  have e3 : copyAt (M ++ S ++ List.replicate (8 + body.length) 0) 8 cmd
      = M ++ S ++ cmd ++ (List.replicate (8 - cmd.length) 0 ++ List.replicate body.length 0) := by
    have h := copyAt_zeros (M ++ S) cmd (8 + body.length) (by omega)
    rw [List.length_append, hM, hS] at h
    rw [h, ← List.replicate_add]
    congr 2
    omega
  have e4 : copyAt (M ++ S ++ cmd ++ (List.replicate (8 - cmd.length) 0
        ++ List.replicate body.length 0)) 16 body
      = M ++ S ++ (cmd ++ List.replicate (8 - cmd.length) 0) ++ body := by
    have h := copyAt_zeros (M ++ S ++ (cmd ++ List.replicate (8 - cmd.length) 0)) body
      body.length le_rfl
    have hl : (M ++ S ++ (cmd ++ List.replicate (8 - cmd.length) 0)).length = 16 := by
      simp only [List.length_append, List.length_replicate, hM, hS]; omega
    rw [hl, Nat.sub_self, List.replicate_zero, List.append_nil] at h
    rw [← h]
    simp only [List.append_assoc]
  simp only [e1, e2, e3, e4]

theorem take_append_len {α : Type} (p q : List α) (n : Nat) (h : p.length = n) :
    (p ++ q).take n = p := by
  subst h; exact List.take_left' rfl

theorem drop_append_len {α : Type} (p q : List α) (n : Nat) (h : p.length = n) :
    (p ++ q).drop n = q := by
  subst h; exact List.drop_left' rfl

/-- Source: `decode` on a buffer cut into its four fields: magic `M`, length `S`, command field
`F` and the rest `T`. -/
theorem decode_parts (M S F T : Bytes) (hM : M.length = 4) (hS : S.length = 4)
    (hF : F.length = 8) :
    decode (M ++ S ++ F ++ T) =
      match beUint32 M with
      | none => Recv.panic
      | some m =>
        if m ≠ magic then Recv.err errInvalidMagic
        else if 0 ∉ F then Recv.panic
        else
          match beUint32 S with
          | none => Recv.panic
          | some sz =>
            if 0 < sz then
              if (16 + sz) % 2 ^ 32 < 16 ∨ 16 + T.length < (16 + sz) % 2 ^ 32 then Recv.panic
              else if ((splitNul (T.take ((16 + sz) % 2 ^ 32 - 16))).dropLast).length % 2 ≠ 0 then
                Recv.err errKVParserFailed
              else
                Recv.ok (F.take (F.indexOf 0))
                  (some (fillArgs (splitNul (T.take ((16 + sz) % 2 ^ 32 - 16))).dropLast ∅))
            else Recv.ok (F.take (F.indexOf 0)) none := by
  have t4 : (M ++ S ++ F ++ T).take 4 = M := by
    rw [List.append_assoc, List.append_assoc]; exact take_append_len _ _ _ hM
  have d4 : ((M ++ S ++ F ++ T).drop 4).take 4 = S := by
    rw [List.append_assoc, List.append_assoc, drop_append_len _ _ _ hM]
    exact take_append_len _ _ _ hS
  have h8 : (M ++ S).length = 8 := by rw [List.length_append, hM, hS]
  have h16 : (M ++ S ++ F).length = 16 := by rw [List.length_append, h8, hF]
  have d8 : ((M ++ S ++ F ++ T).drop 8).take 8 = F := by
    rw [List.append_assoc (M ++ S), drop_append_len _ _ _ h8]
    exact take_append_len _ _ _ hF
  have d16 : (M ++ S ++ F ++ T).drop 16 = T := drop_append_len _ _ _ h16
  have hl : (M ++ S ++ F ++ T).length = 16 + T.length := by
    rw [List.length_append, h16]
  unfold decode
  rw [t4, d4]
  dsimp only
  rw [d8, d16, hl]
  cases beUint32 M with
  | none => rfl
  | some m =>
    dsimp only
    by_cases hm : m = magic
    · simp only [hm, ne_eq, not_true_eq_false, if_false]
      by_cases h0 : (0 : Byte) ∈ F
      · simp only [indexByte, h0, if_true, not_true_eq_false, if_false]
        have : ¬ ((F.indexOf (0 : Byte) : Int) < 0) := by omega
        simp only [this, if_false, Int.toNat_ofNat]
      · simp only [indexByte, h0, if_false, not_false_eq_true, if_true]
        simp
    · simp only [ne_eq, hm, not_false_eq_true, if_true]

/-! ## Lemmas: splitting at NUL and filling the map -/

theorem splitNul_of_not_mem (t : Bytes) (h : (0 : Byte) ∉ t) : splitNul t = [t] := by
  induction t with
  | nil => rfl
  | cons b bs ih =>
    have hb : b ≠ 0 := fun e => h (by simp [e])
    have hbs : (0 : Byte) ∉ bs := fun e => h (List.mem_cons_of_mem _ e)
    simp [splitNul, hb, ih hbs]

theorem splitNul_token (t rest : Bytes) (h : (0 : Byte) ∉ t) :
    splitNul (t ++ 0 :: rest) = t :: splitNul rest := by
  induction t with
  | nil => simp [splitNul]
  | cons b bs ih =>
    have hb : b ≠ 0 := fun e => h (by simp [e])
    have hbs : (0 : Byte) ∉ bs := fun e => h (List.mem_cons_of_mem _ e)
    simp [splitNul, hb, ih hbs]

/-- Source: `bytes.Split` on a sequence of NUL-terminated tokens followed by a NUL-free rest. -/
theorem splitNul_nulTerminated (ts : List Bytes) (tail : Bytes)
    (hts : ∀ t ∈ ts, (0 : Byte) ∉ t) (htail : (0 : Byte) ∉ tail) :
    splitNul (nulTerminated ts ++ tail) = ts ++ [tail] := by
  induction ts with
  | nil => simpa [nulTerminated] using splitNul_of_not_mem tail htail
  | cons t ts ih =>
    have h1 : (0 : Byte) ∉ t := hts t (List.mem_cons_self _ _)
    have h2 : ∀ u ∈ ts, (0 : Byte) ∉ u := fun u hu => hts u (List.mem_cons_of_mem _ hu)
    simp only [nulTerminated, List.append_assoc, List.cons_append]
    rw [splitNul_token t _ h1, ih h2]

theorem sendBody_eq (order : List KV) : sendBody order = nulTerminated (kvTokens order) := by
  induction order with
  | nil => rfl
  | cons p rest ih => simp [sendBody, kvTokens, nulTerminated, ih]

theorem kvTokens_length (order : List KV) : (kvTokens order).length = 2 * order.length := by
  induction order with
  | nil => rfl
  | cons p rest ih => simp only [kvTokens, List.length_cons, ih]; omega

theorem kvTokens_no_nul (order : List KV)
    (hnul : ∀ p ∈ order, (0 : Byte) ∉ p.1 ∧ (0 : Byte) ∉ p.2) :
    ∀ t ∈ kvTokens order, (0 : Byte) ∉ t := by
  induction order with
  | nil => intro t ht; simp [kvTokens] at ht
  | cons p rest ih =>
    intro t ht
    simp only [kvTokens, List.mem_cons] at ht
    rcases ht with rfl | rfl | ht
    · exact (hnul p (List.mem_cons_self _ _)).1
    · exact (hnul p (List.mem_cons_self _ _)).2
    · exact ih (fun q hq => hnul q (List.mem_cons_of_mem _ hq)) t ht

theorem pairUp_kvTokens (order : List KV) : pairUp (kvTokens order) = order := by
  induction order with
  | nil => rfl
  | cons p rest ih => simp [kvTokens, pairUp, ih]

theorem fillArgs_eq_foldl (ts : List Bytes) (m : StrMap) (h : ts.length % 2 = 0) :
    fillArgs ts m = (pairUp ts).foldl (fun acc p => acc.insert p.1 p.2) m := by
  induction ts using pairUp.induct generalizing m with
  | case1 k v rest ih =>
    simp only [fillArgs, pairUp, List.foldl_cons]
    exact ih _ (by simp only [List.length_cons] at h; omega)
  | case2 ts hne =>
    match ts, hne with
    | [], _ => rfl
    | [_], _ => simp at h
    | k :: v :: rest, hne => exact absurd rfl (hne k v rest)

/-- Assignments in order: the value found under `x` is the one of the last entry with
key `x`, or the old one. -/
theorem lookup_foldl_insert (l : List KV) (m : StrMap) (x : Bytes) :
    ((l.foldl (fun acc p => acc.insert p.1 p.2) m).lookup x)
      = (match l.reverse.dlookup x with
         | some v => some v
         | none => m.lookup x) := by
  induction l generalizing m with
  | nil => simp
  | cons p rest ih =>
    rw [List.foldl_cons, ih, List.reverse_cons, List.dlookup_append]
    cases hr : List.dlookup x rest.reverse with
    | some v => simp
    | none =>
      obtain ⟨k, v⟩ := p
      by_cases hx : x = k
      · subst hx
        simp [Finmap.lookup_insert]
      · have h1 : List.dlookup x [(⟨k, v⟩ : KV)] = none := by
          rw [List.dlookup_cons_ne [] (⟨k, v⟩ : KV) hx]; rfl
        simp [Finmap.lookup_insert_of_ne _ hx, h1]

/-- Filling from the entries of a map, in any order, rebuilds that map. -/
theorem foldl_insert_entries (M : StrMap) (order : List KV)
    (h : (order : Multiset KV) = M.entries) :
    order.foldl (fun acc p => acc.insert p.1 p.2) ∅ = M := by
  have nd : order.NodupKeys := by
    have := M.nodupKeys
    rw [← h] at this
    exact Multiset.coe_nodupKeys.mp this
  have hM : M = AList.toFinmap ⟨order, nd⟩ := Finmap.ext (by rw [← h]; rfl)
  apply Finmap.ext_lookup
  intro x
  rw [lookup_foldl_insert, hM, Finmap.lookup_toFinmap, Finmap.lookup_empty]
  show _ = List.dlookup x order
  have nd2 : order.reverse.NodupKeys :=
    (List.perm_nodupKeys (List.reverse_perm order)).mpr nd
  rw [List.perm_dlookup x nd2 nd (List.reverse_perm order)]
  cases List.dlookup x order <;> rfl


/-! ## Lemmas: `receive` -/

theorem magic_lt : magic < 2 ^ 32 := by decide

theorem bePutUint32_length (v : Nat) : (bePutUint32 v).length = 4 := rfl

theorem indexOf_padded (cmd : Bytes) (k : Nat) (h0 : (0 : Byte) ∉ cmd) (hk : 0 < k) :
    (cmd ++ List.replicate k (0 : Byte)).indexOf 0 = cmd.length := by
  obtain ⟨j, rfl⟩ : ∃ j, k = j + 1 := ⟨k - 1, by omega⟩
  rw [List.indexOf_append_of_not_mem h0, List.replicate_succ, List.indexOf_cons_self]
  rfl

/-- A buffer of at least sixteen bytes is its four fields, in order. -/
theorem fields_eq (msg : Bytes) :
    msg = msg.take 4 ++ (msg.drop 4).take 4 ++ (msg.drop 8).take 8 ++ msg.drop 16 := by
  have h1 : msg.drop 8 = (msg.drop 4).drop 4 := by rw [List.drop_drop]
  have h2 : msg.drop 16 = (msg.drop 8).drop 8 := by rw [List.drop_drop]
  rw [h2, List.append_assoc, List.take_append_drop, h1, List.append_assoc,
    List.take_append_drop, List.take_append_drop]

/-- Source: `receive` on the datagram written by `send`, for a command shorter than eight bytes
and entries free of NUL: the command comes back, with the nil map for an empty body and
otherwise the map filled from the entries in the order sent. -/
theorem receive_send_order (cmd : Bytes) (order : List KV) (hc : cmd.length < 8)
    (h0 : (0 : Byte) ∉ cmd) (hnul : ∀ p ∈ order, (0 : Byte) ∉ p.1 ∧ (0 : Byte) ∉ p.2)
    (hlen : (sendBody order).length ≤ 4080) :
    receive (ReadEv.dgram (send cmd order))
      = Recv.ok cmd (if order = [] then none
          else some (order.foldl (fun acc p => acc.insert p.1 p.2) ∅)) := by
  have hsl : (send cmd order).length = 16 + (sendBody order).length := by
    rw [send_eq cmd order (by omega)]
    simp only [List.length_append, bePutUint32_length, List.length_replicate]
    omega
  have hF : (cmd ++ List.replicate (8 - cmd.length) (0 : Byte)).length = 8 := by
    simp only [List.length_append, List.length_replicate]; omega
  have hmemF : (0 : Byte) ∈ cmd ++ List.replicate (8 - cmd.length) (0 : Byte) := by
    apply List.mem_append_right
    exact List.mem_replicate.mpr ⟨by omega, rfl⟩
  have hidx := indexOf_padded cmd (8 - cmd.length) h0 (by omega)
  have hn32 : (sendBody order).length % 2 ^ 32 = (sendBody order).length :=
    Nat.mod_eq_of_lt (by omega)
  show decode (recvBuf (send cmd order)) = _
  rw [recvBuf_eq _ (by rw [hsl]; unfold recvBufSize; omega), hsl, send_eq cmd order (by omega),
    List.append_assoc _ (sendBody order),
    decode_parts _ _ _ _ (bePutUint32_length _) (bePutUint32_length _) hF,
    beUint32_bePutUint32 _ magic_lt, hn32, beUint32_bePutUint32 _ (by omega), hidx,
    take_append_len cmd _ _ rfl]
  simp only [ne_eq, not_true_eq_false, if_false, hmemF]
  cases order with
  | nil => simp [sendBody]
  | cons p rest =>
    have hpos : 0 < (sendBody (p :: rest)).length := by
      simp only [sendBody, List.length_append, List.length_cons]; omega
    have hhi : (16 + (sendBody (p :: rest)).length) % 2 ^ 32
        = 16 + (sendBody (p :: rest)).length := Nat.mod_eq_of_lt (by omega)
    have hts : ∀ t ∈ kvTokens (p :: rest), (0 : Byte) ∉ t :=
      kvTokens_no_nul _ hnul
    have hsplit : (splitNul (sendBody (p :: rest))).dropLast = kvTokens (p :: rest) := by
      have := splitNul_nulTerminated (kvTokens (p :: rest)) [] hts (by simp)
      rw [List.append_nil, ← sendBody_eq] at this
      rw [this, List.dropLast_concat]
    simp only [hpos, if_true, hhi, Nat.add_sub_cancel_left,
      take_append_len (sendBody (p :: rest)) _ _ rfl, hsplit]
    have heven : (kvTokens (p :: rest)).length % 2 = 0 := by
      rw [kvTokens_length]; omega
    have hnp : ¬ (16 + (sendBody (p :: rest)).length < 16 ∨
        16 + (sendBody (p :: rest) ++ List.replicate
          (recvBufSize - (16 + (sendBody (p :: rest)).length)) (0 : Byte)).length
          < 16 + (sendBody (p :: rest)).length) := by
      rw [List.length_append]; omega
    rw [if_neg hnp, if_neg (by rw [heven]; simp), fillArgs_eq_foldl _ _ heven, pairUp_kvTokens]
    simp

theorem take_indexOf_eq_takeWhile (l : Bytes) :
    l.take (l.indexOf 0) = l.takeWhile (fun b => decide (b ≠ 0)) := by
  induction l with
  | nil => rfl
  | cons b bs ih =>
    by_cases hb : b = 0
    · subst hb
      simp [List.takeWhile]
    · have hb2 : ¬ (0 : Byte) = b := fun e => hb e.symm
      rw [List.indexOf_cons_ne _ hb, List.take_succ_cons, ih, List.takeWhile_cons]
      simp [hb]

/-- Source: `decode` on a 4096-byte buffer with the magic number, a NUL in the command field and
a declared length `sz` in `[1, 4080]`: the pieces of the body, the last one dropped, are
paired up. -/
theorem decode_body (msg : Bytes) (sz : Nat) (hl : msg.length = recvBufSize)
    (hmagic : beUint32 (msg.take 4) = some magic)
    (hnul : (0 : Byte) ∈ (msg.drop 8).take 8)
    (hsz : beUint32 ((msg.drop 4).take 4) = some sz) (h1 : 1 ≤ sz) (h2 : sz ≤ 4080) :
    decode msg =
      if (splitNul ((msg.drop 16).take sz)).dropLast.length % 2 ≠ 0 then
        Recv.err errKVParserFailed
      else
        Recv.ok (((msg.drop 8).take 8).takeWhile (fun b => decide (b ≠ 0)))
          (some (fillArgs (splitNul ((msg.drop 16).take sz)).dropLast ∅)) := by
  unfold recvBufSize at hl
  have e := decode_parts (msg.take 4) ((msg.drop 4).take 4) ((msg.drop 8).take 8)
    (msg.drop 16) (by rw [List.length_take]; omega)
    (by rw [List.length_take, List.length_drop]; omega)
    (by rw [List.length_take, List.length_drop]; omega)
  rw [← fields_eq msg, hmagic, hsz] at e
  rw [e]
  have hhi : (16 + sz) % 2 ^ 32 = 16 + sz := Nat.mod_eq_of_lt (by omega)
  have hT : (msg.drop 16).length = 4080 := by rw [List.length_drop]; omega
  simp only [ne_eq, not_true_eq_false, if_false, hnul, hhi, hT, Nat.add_sub_cancel_left,
    take_indexOf_eq_takeWhile]
  rw [if_pos (by omega), if_neg (by omega)]

theorem beUint32_lt (b : Bytes) (v : Nat) (h : beUint32 b = some v) : v < 2 ^ 32 := by
  match b, h with
  | b0 :: b1 :: b2 :: b3 :: _, h =>
    simp only [beUint32, Option.some.injEq] at h
    have h0 := b0.isLt
    have h1 := b1.isLt
    have h2 := b2.isLt
    have h3 := b3.isLt
    omega

/-- Source: `decode` on a 4096-byte buffer that starts with the magic number, by cases
on the command field and the declared length `sz`. -/
theorem decode_magic (msg : Bytes) (sz : Nat) (hl : msg.length = recvBufSize)
    (hmagic : beUint32 (msg.take 4) = some magic)
    (hsz : beUint32 ((msg.drop 4).take 4) = some sz) :
    decode msg =
      if (0 : Byte) ∉ (msg.drop 8).take 8 then Recv.panic
      else if sz = 0 then
        Recv.ok (((msg.drop 8).take 8).takeWhile (fun b => decide (b ≠ 0))) none
      else if 4080 < sz then Recv.panic
      else if (splitNul ((msg.drop 16).take sz)).dropLast.length % 2 ≠ 0 then
        Recv.err errKVParserFailed
      else
        Recv.ok (((msg.drop 8).take 8).takeWhile (fun b => decide (b ≠ 0)))
          (some (fillArgs (splitNul ((msg.drop 16).take sz)).dropLast ∅)) := by
  by_cases hnul : (0 : Byte) ∈ (msg.drop 8).take 8
  · rw [if_neg (not_not.mpr hnul)]
    by_cases h0 : sz = 0
    · rw [if_pos h0]
      have hl2 := hl
      unfold recvBufSize at hl2
      have e := decode_parts (msg.take 4) ((msg.drop 4).take 4) ((msg.drop 8).take 8)
        (msg.drop 16) (by rw [List.length_take]; omega)
        (by rw [List.length_take, List.length_drop]; omega)
        (by rw [List.length_take, List.length_drop]; omega)
      rw [← fields_eq msg, hmagic, hsz] at e
      rw [e]
      simp only [ne_eq, not_true_eq_false, if_false, hnul, h0, Nat.lt_irrefl,
        take_indexOf_eq_takeWhile]
    · rw [if_neg h0]
      by_cases hbig : 4080 < sz
      · rw [if_pos hbig]
        have hl2 := hl
        unfold recvBufSize at hl2
        have e := decode_parts (msg.take 4) ((msg.drop 4).take 4) ((msg.drop 8).take 8)
          (msg.drop 16) (by rw [List.length_take]; omega)
          (by rw [List.length_take, List.length_drop]; omega)
          (by rw [List.length_take, List.length_drop]; omega)
        rw [← fields_eq msg, hmagic, hsz] at e
        rw [e]
        have hT : (msg.drop 16).length = 4080 := by rw [List.length_drop]; omega
        have h32 := beUint32_lt _ _ hsz
        simp only [ne_eq, not_true_eq_false, if_false, hnul, hT]
        rw [if_pos (by omega), if_pos]
        by_cases hw : 16 + sz < 2 ^ 32
        · right
          rw [Nat.mod_eq_of_lt hw]
          omega
        · left
          omega
      · rw [if_neg hbig]
        exact decode_body msg sz hl hmagic hnul hsz (by omega) (by omega)
  · rw [if_pos hnul]
    have hl2 := hl
    unfold recvBufSize at hl2
    have e := decode_parts (msg.take 4) ((msg.drop 4).take 4) ((msg.drop 8).take 8)
      (msg.drop 16) (by rw [List.length_take]; omega)
      (by rw [List.length_take, List.length_drop]; omega)
      (by rw [List.length_take, List.length_drop]; omega)
    rw [← fields_eq msg, hmagic] at e
    rw [e]
    simp only [ne_eq, not_true_eq_false, if_false, hnul, not_false_eq_true, if_true]

/-! ## Lemmas: the two read loops -/

/-- Source: `receive` on the datagram `send` builds for a protocol command and no arguments. -/
theorem receive_send_nil (cmd : Bytes) (hc : cmd.length < 8) (h0 : (0 : Byte) ∉ cmd) :
    receive (ReadEv.dgram (send cmd [])) = Recv.ok cmd none := by
  have h := receive_send_order cmd [] hc h0 (by simp) (by decide)
  rwa [if_pos rfl] at h

/-- A datagram whose first four bytes are not the magic number. -/
theorem receive_bad_magic (d : Bytes) (h : beUint32 ((recvBuf d).take 4) ≠ some magic) :
    receive (ReadEv.dgram d) = Recv.err errInvalidMagic := by
  show decode (recvBuf d) = _
  unfold decode
  cases hm : beUint32 ((recvBuf d).take 4) with
  | none =>
    exfalso
    have hl := recvBuf_length d
    generalize recvBuf d = msg at hm hl
    match msg, hl, hm with
    | a0 :: a1 :: a2 :: a3 :: t, _, hm => simp [beUint32] at hm
    | [], hl, _ => simp [recvBufSize] at hl
    | [_], hl, _ => simp [recvBufSize] at hl
    | [_, _], hl, _ => simp [recvBufSize] at hl
    | [_, _, _], hl, _ => simp [recvBufSize] at hl
  | some m =>
    dsimp only
    rw [if_pos]
    intro e
    exact h (by rw [hm, e])

/-- An error of `receive` ends the `Invoke` loop with the control state as it was. -/
theorem invokeLoop_err (st : state) (ev : ReadEv) (rest : List ReadEv) (e : Err)
    (h : receive ev = Recv.err e) :
    invokeLoop st (ev :: rest) = (Outcome.ret (some e), st, rest) := by
  simp only [invokeLoop, h]

/-- An error of `receive` ends the handshake loop with the control state as it was. -/
theorem initLoop_err (st : state) (ev : ReadEv) (rest : List ReadEv) (e : Err)
    (h : receive ev = Recv.err e) :
    initLoop st (ev :: rest) = (Outcome.ret (some e), st, rest) := by
  simp only [initLoop, h]

/-- The handshake loop returns `nil` only in state `Ready`. -/
theorem initLoop_nil_ready (inbox : List ReadEv) :
    ∀ st : state, (initLoop st inbox).1 = Outcome.ret none →
      (initLoop st inbox).2.1 = stateReady := by
  induction inbox with
  | nil => intro st h; simp [initLoop] at h
  | cons ev rest ih =>
    intro st
    unfold initLoop
    cases hr : receive ev with
    | err e => intro h; simp at h
    | panic => intro h; simp at h
    | ok cmd a =>
      dsimp only
      split_ifs <;> first | exact ih _ | (intro _; rfl) | (intro h; simp at h)

/-- The first four bytes of the receive buffer are those of the datagram. -/
theorem recvBuf_take4 (a0 a1 a2 a3 : Byte) (t : Bytes)
    (h : (a0 :: a1 :: a2 :: a3 :: t).length ≤ recvBufSize) :
    (recvBuf (a0 :: a1 :: a2 :: a3 :: t)).take 4 = [a0, a1, a2, a3] := by
  rw [recvBuf_eq _ h]
  rfl

/-- One step of the handshake loop on a frame that `receive` accepts. -/
theorem initLoop_ok (st : state) (ev : ReadEv) (rest : List ReadEv) (cmd : Bytes)
    (a : Option StrMap) (h : receive ev = Recv.ok cmd a) :
    initLoop st (ev :: rest) =
      if cmd = cmdRunning then
        if st = stateStarting then initLoop stateInitializing rest else initLoop st rest
      else if cmd = cmdDone then
        if st = stateInitializing then (Outcome.ret none, stateReady, rest)
        else initLoop st rest
      else if cmd = cmdFault then (Outcome.ret (some errControlFault), st, rest)
      else (Outcome.ret (some errUnknownCommand), st, rest) := by
  simp only [initLoop, h]

/-! ## Lemmas: zero-fill -/

/-- The doubling loop, entered with the first `bp` bytes zero, zeroes the buffer. -/
theorem zeroLoop_zero (k : Nat) :
    ∀ (m : Bytes) (bp : Nat) (hbp : 0 < bp), m.length - bp = k →
      m.take bp = List.replicate (min bp m.length) 0 →
      zeroLoop m bp hbp = List.replicate m.length 0 := by
  induction k using Nat.strong_induction_on with
  | _ k ih =>
    intro m bp hbp hk hinv
    rw [zeroLoop]
    by_cases hlt : bp < m.length
    · rw [if_pos hlt]
      have hlen : (copyAt m bp (m.take bp)).length = m.length :=
        copyAt_length m bp _ (by omega)
      have hmin : min bp m.length = bp := by omega
      rw [hmin] at hinv
      have hstep : copyAt m bp (m.take bp)
          = List.replicate bp 0 ++ List.replicate (min bp (m.length - bp)) 0
              ++ m.drop (bp + bp) := by
        unfold copyAt
        rw [hinv, List.take_replicate, List.length_replicate, Nat.min_comm]
      have h := ih (m.length - bp * 2) (by omega) (copyAt m bp (m.take bp)) (bp * 2)
        (by omega) (by rw [hlen]) ?_
      · rw [h, hlen]
      · rw [hlen, hstep]
        by_cases h2 : bp * 2 ≤ m.length
        · have e1 : min bp (m.length - bp) = bp := by omega
          have e2 : min (bp * 2) m.length = bp * 2 := by omega
          rw [e1, e2, ← List.replicate_add, show bp + bp = bp * 2 by omega]
          exact take_append_len _ _ _ (List.length_replicate _ _)
        · have e1 : min bp (m.length - bp) = m.length - bp := by omega
          have e2 : min (bp * 2) m.length = m.length := by omega
          have e3 : m.drop (bp + bp) = [] := List.drop_eq_nil_of_le (by omega)
          rw [e1, e2, e3, List.append_nil, ← List.replicate_add,
            show bp + (m.length - bp) = m.length by omega]
          exact List.take_of_length_le (by rw [List.length_replicate]; omega)
    · rw [if_neg hlt]
      have hmin : min bp m.length = m.length := by omega
      rw [hmin, List.take_of_length_le (by omega)] at hinv
      exact hinv

/-! ## Lemmas: the pool -/

theorem getElem?_concat_length {α : Type} (l : List α) (a : α) :
    (l ++ [a])[l.length]? = some a := by
  simp

/-- Source: `Get` on a free list that ends with `w`. -/
theorem Get_concat {F : Type} (New : Nat → Except Err F) (p : FunctionPool F) (L : List F)
    (w : F) (h : p.freeFunction = L ++ [w]) :
    FunctionPool.Get New p = (some (Except.ok w), { p with freeFunction := L }) := by
  unfold FunctionPool.Get
  simp only [h, List.length_append, List.length_singleton, Nat.lt_add_left_iff_pos,
    Nat.lt_one_iff, if_true, Nat.add_sub_cancel, getElem?_concat_length]
  rw [if_pos (by omega), take_append_len L [w] L.length rfl]

/-- The loop of `Purge` started at the length of the free list, when the workers in
`above`, the top part of the stack, all close without error: they are closed from the
top down and the loop goes on with the part below. -/
theorem purgeLoop_closes_top {F : Type} (Close : F → Option Err) (above : List F) :
    ∀ (below : List F) (p : FunctionPool F), p.freeFunction = below ++ above →
      (∀ f ∈ above, Close f = none) →
      purgeLoop Close (below ++ above).length p
        = purgeLoop Close below.length
            { p with freeFunction := below, closed := p.closed ++ above.reverse } := by
  induction above using List.reverseRecOn with
  | nil =>
    intro below p h _
    simp only [List.append_nil] at h ⊢
    simp only [List.reverse_nil, List.append_nil]
    rw [← h]
  | append_singleton above f ih =>
    intro below p h hc
    have hlen : (below ++ (above ++ [f])).length = (below ++ above).length + 1 := by
      simp only [List.length_append, List.length_singleton]; omega
    have hget : p.freeFunction[(below ++ above).length]? = some f := by
      rw [h, ← List.append_assoc]
      exact getElem?_concat_length (below ++ above) f
    have htake : p.freeFunction.take (below ++ above).length = below ++ above := by
      rw [h, ← List.append_assoc]
      exact take_append_len (below ++ above) [f] _ rfl
    rw [hlen]
    simp only [purgeLoop, hget, htake, hc f (by simp)]
    rw [ih below _ rfl (fun g hg => hc g (by simp [hg]))]
    simp only [List.reverse_append, List.reverse_singleton, List.singleton_append,
      List.append_assoc]

/-- Source: `Purge` when the `Close` of the top worker fails. -/
theorem Purge_top_fails {F : Type} (Close : F → Option Err) (p : FunctionPool F)
    (below : List F) (f : F) (e : Err) (h : p.freeFunction = below ++ [f])
    (hf : Close f = some e) :
    FunctionPool.Purge Close p
      = (Outcome.ret (some e), { p with freeFunction := below, closed := p.closed ++ [f] }) := by
  have hlen : p.freeFunction.length = below.length + 1 := by rw [h]; simp
  have hget : p.freeFunction[below.length]? = some f := by
    rw [h]; exact getElem?_concat_length below f
  have htake : p.freeFunction.take below.length = below := by
    rw [h]; exact take_append_len below [f] _ rfl
  rw [FunctionPool.Purge, hlen]
  simp only [purgeLoop, hget, hf, htake]

/-! ## Lemmas: the jail -/

theorem File.Close_closed (h : File) : h.Close.2.closed = true := by
  unfold File.Close
  split_ifs with hc
  · exact hc
  · rfl

theorem File.WriteString_closed (h : File) (str : String) (hc : h.closed = true) :
    h.WriteString str = (some errClosed, h) := by
  unfold File.WriteString
  rw [if_pos hc]

theorem lastErr_some (err : Option Err) (e : Err) : lastErr err (some e) = some e := rfl

/-- The default configuration carries the environment of the jail. -/
theorem configure_envar (f : Freezer) : (configure f).1.envar = f.Env.getD [] := by
  unfold configure
  dsimp only
  split_ifs <;> rfl

/-- The jail as `Freezer.Close` leaves it. -/
theorem Freezer.Close_snd (rm1 rm2 : Option Nat) (f : Freezer) :
    (f.Close rm1 rm2).2 =
      { f with
          config := f.config.Close.2,
          wrapper := f.wrapper.Close.2,
          state := (f.state.WriteString "THAWED").2.Close.2,
          nsjail := f.nsjail.Close.2,
          dirRemoved := f.dirRemoved || rm1.isNone || rm2.isNone,
          trace := f.trace ++ [Step.thaw, Step.closeConfig, Step.closeWrapper,
            Step.closeState, Step.closeNsjail]
            ++ (if rm1.isNone then [Step.removeDir] else [Step.removeDir, Step.removeDir]) } := by
  cases rm1 <;> cases rm2 <;>
    simp [Freezer.Close, Freezer.Thaw, Freezer.closeConfig, Freezer.closeWrapper,
      Freezer.closeState, Freezer.closeNsjail, Freezer.removeDir]

/-! ## Lemmas: the purge trigger -/

/-- A burst received with the counter positive: every signal re-arms the timer, and the
purge comes 200 ms after the last one. -/
theorem debounceRun_burst (sf : Bool) (rest : List Nat) :
    ∀ (a n : Nat) (armed purges : List Nat), 0 < n →
      List.Chain (fun x y => x ≤ y ∧ y < x + 200) a rest →
      debounceRun sf (rest.length + 1) ⟨n, a, rest, armed, purges⟩
        = ⟨0, rest.getLastD a + 200, [], armed ++ a :: rest,
            purges ++ [rest.getLastD a + 200]⟩ := by
  induction rest with
  | nil =>
    intro a n armed purges hn _
    simp [debounceRun, debounceIter, hn]
  | cons b rest ih =>
    intro a n armed purges hn hc
    rw [List.chain_cons] at hc
    obtain ⟨⟨hab, hlt⟩, hc2⟩ := hc
    have hstep : debounceIter sf ⟨n, a, b :: rest, armed, purges⟩
        = some ⟨n + 1, b, rest, armed ++ [a], purges⟩ := by
      simp [debounceIter, hn, hlt, Nat.max_eq_right hab]
    rw [List.length_cons, debounceRun, hstep]
    dsimp only
    rw [ih b (n + 1) (armed ++ [a]) purges (by omega) hc2]
    have hl : (b :: rest).getLastD a = rest.getLastD b := by
      cases rest <;> rfl
    rw [hl, List.append_assoc]
    rfl

/-! ## Lemmas: shared region -/

theorem leUint32_lt (m : Nat → Byte) (i : Nat) : leUint32 m i < 2 ^ 32 := by
  unfold leUint32
  have h0 := (m i).isLt
  have h1 := (m (i + 1)).isLt
  have h2 := (m (i + 2)).isLt
  have h3 := (m (i + 3)).isLt
  omega

theorem leUint32_lePutUint32 (m : Nat → Byte) (i v : Nat) (h : v < 2 ^ 32) :
    leUint32 (lePutUint32 m i v) i = v := by
  simp only [leUint32, lePutUint32, toByte, if_true, Nat.add_right_eq_self,
    Nat.add_right_cancel_iff, OfNat.ofNat_ne_zero, if_false]
  norm_num
  omega

theorem lePutUint32_other (m : Nat → Byte) (i v j : Nat) (h : j < i ∨ i + 4 ≤ j) :
    lePutUint32 m i v j = m j := by
  unfold lePutUint32
  rw [if_neg (by omega), if_neg (by omega), if_neg (by omega), if_neg (by omega)]

/-- Source: `Response` in closed form: the `uint32` sum `8 + h` wraps for the eight largest
header values, and the slice expression then panics. -/
theorem Response_eq (s : shmem) :
    s.Response =
      if leUint32 s.mmap debugEnd + 8 < 2 ^ 32 then
        some ⟨8, 8 + min (leUint32 s.mmap debugEnd) bodyMax⟩
      else none := by
  have hlt := leUint32_lt s.mmap debugEnd
  unfold shmem.Response
  simp only [bodyBegin, bodyEnd, bodyMax, shmemSize] at *
  generalize leUint32 s.mmap debugEnd = h at *
  by_cases hw : h + 8 < 2 ^ 32
  · rw [if_pos hw, Nat.mod_eq_of_lt (by omega)]
    by_cases hc : 8 + h > 8 + 6291556
    · rw [if_pos hc, if_pos (by omega)]
      congr 2; omega
    · rw [if_neg hc, if_pos (by omega)]
      congr 2; omega
  · rw [if_neg hw]
    have : (8 + h) % 2 ^ 32 = 8 + h - 2 ^ 32 := by omega
    rw [this, if_neg (show ¬ (8 + h - 2 ^ 32 > 8 + 6291556) by omega)]
    exact if_neg (by omega)

/-- One `Write` with the cursor at `o ≤ bodyMax`, in closed form. -/
theorem Write_eq (s : shmem) (data : Bytes) (o : Nat) (ho : s.off = (o : Int))
    (hle : o ≤ bodyMax) :
    s.Write data = some (min data.length (bodyMax - o),
      { mmap := lePutUint32
          (fun j => if 8 + o ≤ j ∧ j < 8 + o + min data.length (bodyMax - o)
            then data.getD (j - (8 + o)) 0 else s.mmap j) 0 (o + min data.length (bodyMax - o)),
        off := ((o + min data.length (bodyMax - o) : Nat) : Int) }) := by
  unfold shmem.Write
  simp only [bodyBegin, bodyEnd, bodyMax, ho] at *
  have h1 : ¬ (((8 : Nat) : Int) + (o : Int) < 0 ∨ (((8 + 6291556 : Nat)) : Int) < ((8 : Nat) : Int) + (o : Int)) := by
    omega
  rw [if_neg h1]
  have h2 : (((8 : Nat) : Int) + (o : Int)).toNat = 8 + o := by omega
  have h3 : min (8 + 6291556 - (8 + o)) data.length = min data.length (6291556 - o) := by omega
  have h4 : (((o : Int) + ((min data.length (6291556 - o) : Nat) : Int)) % 2 ^ 32).toNat
      = o + min data.length (6291556 - o) := by omega
  simp only [h2, h3, h4]
  norm_cast

/-- What one `Write` leaves unchanged: everything outside the length header `[0..4)` and
the copied range. -/
theorem Write_frame (s s1 : shmem) (data : Bytes) (o n : Nat) (ho : s.off = (o : Int))
    (hle : o ≤ bodyMax) (hw : s.Write data = some (n, s1)) (j : Nat) (h4 : 4 ≤ j)
    (hj : ¬ (8 + o ≤ j ∧ j < 8 + o + n)) : s1.mmap j = s.mmap j := by
  rw [Write_eq s data o ho hle] at hw
  simp only [Option.some.injEq, Prod.mk.injEq] at hw
  obtain ⟨hn, hs⟩ := hw
  subst hs
  dsimp only
  rw [lePutUint32_other _ _ _ _ (Or.inr (by omega)), hn, if_neg hj]

/-- A sequence of `Write`s from a cursor inside the body slot never panics, keeps the
cursor inside the slot and leaves the debug-length header and everything from the debug
region on untouched. -/
theorem Writes_inv (datas : List Bytes) :
    ∀ (s : shmem) (o : Nat), s.off = (o : Int) → o ≤ bodyMax →
      ∃ (s1 : shmem) (o1 : Nat), s.Writes datas = some s1 ∧ s1.off = (o1 : Int) ∧ o1 ≤ bodyMax
        ∧ ∀ j, (4 ≤ j ∧ j < 8) ∨ bodyEnd ≤ j → s1.mmap j = s.mmap j := by
  induction datas with
  | nil => intro s o ho hle; exact ⟨s, o, rfl, ho, hle, fun _ _ => rfl⟩
  | cons d ds ih =>
    intro s o ho hle
    obtain ⟨s0, hw, hoff⟩ : ∃ s0 : shmem,
        s.Write d = some (min d.length (bodyMax - o), s0)
          ∧ s0.off = ((o + min d.length (bodyMax - o) : Nat) : Int) :=
      ⟨_, Write_eq s d o ho hle, rfl⟩
    have hle1 : o + min d.length (bodyMax - o) ≤ bodyMax := by omega
    obtain ⟨s1, o1, h1, h2, h3, h4⟩ := ih s0 (o + min d.length (bodyMax - o)) hoff hle1
    refine ⟨s1, o1, ?_, h2, h3, ?_⟩
    · simp only [shmem.Writes, hw]
      exact h1
    · intro j hj
      rw [h4 j hj]
      refine Write_frame s s0 d o _ ho hle hw j (by unfold bodyEnd at hj; omega) ?_
      unfold bodyEnd at hj
      omega

/-- Source: `Debug` in closed form: the `uint32` sum `debugBegin + d` wraps for the
6291564 largest header values, and the slice expression then panics. -/
theorem Debug_eq (s : shmem) :
    s.Debug =
      if leUint32 s.mmap 4 + debugBegin < 2 ^ 32 then
        some ⟨debugBegin, debugBegin + min (leUint32 s.mmap 4) debugMax⟩
      else none := by
  have hlt := leUint32_lt s.mmap 4
  unfold shmem.Debug
  simp only [debugBegin, debugEnd, debugMax, bodyMax, shmemSize] at *
  generalize leUint32 s.mmap 4 = h at *
  by_cases hw : h + (8 + 6291556) < 2 ^ 32
  · rw [if_pos hw, Nat.mod_eq_of_lt (by omega)]
    by_cases hc : 8 + 6291556 + h > 8 + 6291556 + 102968
    · rw [if_pos hc, if_pos (by omega)]
      congr 2; omega
    · rw [if_neg hc, if_pos (by omega)]
      congr 2; omega
  · rw [if_neg hw]
    have : (8 + 6291556 + h) % 2 ^ 32 = 8 + 6291556 + h - 2 ^ 32 := by omega
    rw [this, if_neg (show ¬ (8 + 6291556 + h - 2 ^ 32 > 8 + 6291556 + 102968) by omega)]
    exact if_neg (by omega)

theorem Reset_Reset (s : shmem) : s.Reset.Reset = s.Reset := by
  unfold shmem.Reset
  congr 1
  funext j
  simp only [lePutUint32]
  split_ifs <;> rfl

/-! ## Control channel: encoding and decoding -/

/-- C1: for each protocol command, every argument map `M` (the empty one included)
whose keys and values contain no NUL and whose encoded body is at most 4080 bytes, and
every order in which `send` serializes the entries of `M`, `receive` applied to the
datagram produced by `send` returns no error, the same command, and a map with the
same entries as `M`: `M` itself when it is not empty, the nil map, which has no entries,
when it is. -/
theorem send_receive_roundtrip (cmd : Bytes) (M : StrMap) (order : List KV)
    (hcmd : cmd ∈ [cmdStart, cmdInvoke, cmdRunning, cmdDone, cmdError, cmdFault])
    (horder : (order : Multiset KV) = M.entries)
    (hnul : ∀ p ∈ order, (0 : Byte) ∉ p.1 ∧ (0 : Byte) ∉ p.2)
    (hlen : (sendBody order).length ≤ 4080) :
    ∃ a : Option StrMap,
      receive (ReadEv.dgram (send cmd order)) = Recv.ok cmd a
      ∧ entriesOf a = M
      ∧ a = (if M = ∅ then none else some M) := by
  have hc : cmd.length < 8 ∧ (0 : Byte) ∉ cmd := by
    simp only [List.mem_cons, List.mem_singleton, List.not_mem_nil, or_false] at hcmd
    rcases hcmd with rfl | rfl | rfl | rfl | rfl | rfl <;> decide
  have hiff : order = [] ↔ M = ∅ := by
    constructor
    · intro h
      apply Finmap.ext
      rw [← horder, h]
      rfl
    · intro h
      rw [h] at horder
      exact (Multiset.coe_eq_zero order).mp horder
  have hrecv : receive (ReadEv.dgram (send cmd order))
      = Recv.ok cmd (if M = ∅ then none else some M) := by
    rw [receive_send_order cmd order hc.1 hc.2 hnul hlen, foldl_insert_entries M order horder]
    by_cases h : M = ∅
    · rw [if_pos h, if_pos (hiff.mpr h)]
    · rw [if_neg h, if_neg (fun e => h (hiff.mp e))]
  refine ⟨_, hrecv, ?_, rfl⟩
  by_cases h : M = ∅
  · rw [if_pos h, h]
    rfl
  · rw [if_neg h]
    rfl

/-- Witness of `send_receive_roundtrip`: INVOKE with a map of two entries, sent in the
order opposite to the one the map stores them in. -/
theorem send_receive_roundtrip_witness :
    ∃ a : Option StrMap,
      receive (ReadEv.dgram (send cmdInvoke [⟨[107], [118]⟩, ⟨[97], [98, 99]⟩]))
        = Recv.ok cmdInvoke a
      ∧ entriesOf a = Finmap.insert [107] [118] (Finmap.singleton [97] [98, 99]) :=
  (send_receive_roundtrip cmdInvoke (Finmap.insert [107] [118] (Finmap.singleton [97] [98, 99]))
    [⟨[107], [118]⟩, ⟨[97], [98, 99]⟩] (by decide) (by decide) (by decide) (by decide)).imp
    (fun _ h => ⟨h.1, h.2.1⟩)

/-- C7: for a frame with the correct magic, a NUL inside the command field and a
declared body length between 1 and 4080, whose body consists of the NUL-terminated
tokens `ts` followed by a rest without NUL, `receive` returns `KvParserFailed` when the
number of tokens is odd, and otherwise returns the command (the bytes of the field
before its first NUL) with the map that pairs the tokens in order, a later pair replacing
an earlier one with the same key; so it fails exactly when the number of NUL-terminated
tokens is odd. -/
theorem receive_pairs_tokens (d : Bytes) (sz : Nat) (ts : List Bytes) (tail : Bytes)
    (hmagic : beUint32 ((recvBuf d).take 4) = some magic)
    (hnul : (0 : Byte) ∈ ((recvBuf d).drop 8).take 8)
    (hsz : beUint32 (((recvBuf d).drop 4).take 4) = some sz)
    (h1 : 1 ≤ sz) (h2 : sz ≤ 4080)
    (hbody : ((recvBuf d).drop 16).take sz = nulTerminated ts ++ tail)
    (hts : ∀ t ∈ ts, (0 : Byte) ∉ t) (htail : (0 : Byte) ∉ tail) :
    (ts.length % 2 = 1 → receive (ReadEv.dgram d) = Recv.err errKVParserFailed)
    ∧ (ts.length % 2 = 0 →
        ∃ m : StrMap,
          receive (ReadEv.dgram d)
            = Recv.ok ((((recvBuf d).drop 8).take 8).takeWhile (fun b => decide (b ≠ 0))) (some m)
          ∧ m = (pairUp ts).foldl (fun acc p => acc.insert p.1 p.2) ∅
          ∧ ∀ k, m.lookup k = (pairUp ts).reverse.dlookup k)
    ∧ (receive (ReadEv.dgram d) = Recv.err errKVParserFailed ↔ ts.length % 2 = 1) := by
  have hd := decode_body (recvBuf d) sz (recvBuf_length d) hmagic hnul hsz h1 h2
  rw [hbody, splitNul_nulTerminated ts tail hts htail, List.dropLast_concat] at hd
  have hodd : ts.length % 2 = 1 → receive (ReadEv.dgram d) = Recv.err errKVParserFailed := by
    intro h
    show decode (recvBuf d) = _
    rw [hd, if_pos (by omega)]
  have heven : ts.length % 2 = 0 → receive (ReadEv.dgram d)
      = Recv.ok ((((recvBuf d).drop 8).take 8).takeWhile (fun b => decide (b ≠ 0)))
          (some ((pairUp ts).foldl (fun acc p => acc.insert p.1 p.2) ∅)) := by
    intro h
    show decode (recvBuf d) = _
    rw [hd, if_neg (by omega), fillArgs_eq_foldl ts ∅ h]
  refine ⟨hodd, ?_, ?_⟩
  · intro h
    refine ⟨_, heven h, rfl, ?_⟩
    intro k
    rw [lookup_foldl_insert, Finmap.lookup_empty]
    cases List.dlookup k (pairUp ts).reverse <;> rfl
  · constructor
    · intro h
      by_contra hne
      rw [heven (by omega)] at h
      exact Recv.noConfusion h
    · exact hodd

/-- Witness of `receive_pairs_tokens`: the frame of DONE with the body `k NUL v NUL`. -/
theorem receive_pairs_tokens_witness :
    ∃ m : StrMap,
      receive (ReadEv.dgram
          [71, 105, 114, 68, 0, 0, 0, 4, 68, 79, 78, 69, 0, 0, 0, 0, 107, 0, 118, 0])
        = Recv.ok ((((recvBuf
            [71, 105, 114, 68, 0, 0, 0, 4, 68, 79, 78, 69, 0, 0, 0, 0, 107, 0, 118, 0]).drop 8).take
              8).takeWhile (fun b => decide (b ≠ 0))) (some m)
      ∧ m = (pairUp [[107], [118]]).foldl (fun acc p => acc.insert p.1 p.2) ∅
      ∧ ∀ k, m.lookup k = (pairUp [[107], [118]]).reverse.dlookup k :=
  (receive_pairs_tokens
    [71, 105, 114, 68, 0, 0, 0, 4, 68, 79, 78, 69, 0, 0, 0, 0, 107, 0, 118, 0] 4
    [[107], [118]] []
    (by rw [recvBuf_eq _ (by decide)]; decide)
    (by rw [recvBuf_eq _ (by decide)]; decide)
    (by rw [recvBuf_eq _ (by decide)]; decide)
    (by decide) (by decide)
    (by rw [recvBuf_eq _ (by decide)]; decide)
    (by decide) (by decide)).2.1 (by decide)

/-- C17: on the 4096-byte receive buffer holding a datagram with the correct magic,
`receive` completes without an out-of-range slice exactly when the command field
`[8..16)` contains a NUL and the declared body length is at most 4080; it then returns
`KvParserFailed` or a command with its map, and a returned command is the bytes of the
field before its first NUL. A command field without NUL, or a declared length above
4080, makes it panic. -/
theorem receive_safe_iff (d : Bytes) (sz : Nat)
    (hmagic : beUint32 ((recvBuf d).take 4) = some magic)
    (hsz : beUint32 (((recvBuf d).drop 4).take 4) = some sz) :
    (receive (ReadEv.dgram d) ≠ Recv.panic
        ↔ ((0 : Byte) ∈ ((recvBuf d).drop 8).take 8 ∧ sz ≤ 4080))
    ∧ (receive (ReadEv.dgram d) ≠ Recv.panic →
        receive (ReadEv.dgram d) = Recv.err errKVParserFailed
          ∨ ∃ a, receive (ReadEv.dgram d)
              = Recv.ok ((((recvBuf d).drop 8).take 8).takeWhile (fun b => decide (b ≠ 0))) a)
    ∧ ((0 : Byte) ∉ ((recvBuf d).drop 8).take 8 → receive (ReadEv.dgram d) = Recv.panic)
    ∧ (4080 < sz → receive (ReadEv.dgram d) = Recv.panic) := by
  have hd : receive (ReadEv.dgram d) = _ :=
    decode_magic (recvBuf d) sz (recvBuf_length d) hmagic hsz
  by_cases hnul : (0 : Byte) ∈ ((recvBuf d).drop 8).take 8
  · rw [if_neg (not_not.mpr hnul)] at hd
    by_cases h0 : sz = 0
    · rw [if_pos h0] at hd
      rw [hd]
      exact ⟨⟨fun _ => ⟨hnul, by omega⟩, fun _ => by simp⟩, fun _ => Or.inr ⟨_, rfl⟩,
        fun h => absurd hnul h, fun h => by omega⟩
    · rw [if_neg h0] at hd
      by_cases hbig : 4080 < sz
      · rw [if_pos hbig] at hd
        rw [hd]
        exact ⟨⟨fun h => absurd rfl h, fun h => by omega⟩, fun h => absurd rfl h,
          fun _ => rfl, fun _ => rfl⟩
      · rw [if_neg hbig] at hd
        by_cases hodd : (splitNul (((recvBuf d).drop 16).take sz)).dropLast.length % 2 ≠ 0
        · rw [if_pos hodd] at hd
          rw [hd]
          exact ⟨⟨fun _ => ⟨hnul, by omega⟩, fun _ => by simp⟩, fun _ => Or.inl rfl,
            fun h => absurd hnul h, fun h => absurd h hbig⟩
        · rw [if_neg hodd] at hd
          rw [hd]
          exact ⟨⟨fun _ => ⟨hnul, by omega⟩, fun _ => by simp⟩, fun _ => Or.inr ⟨_, rfl⟩,
            fun h => absurd hnul h, fun h => absurd h hbig⟩
  · rw [if_pos hnul] at hd
    rw [hd]
    exact ⟨⟨fun h => absurd rfl h, fun h => absurd h.1 hnul⟩, fun h => absurd rfl h,
      fun _ => rfl, fun _ => rfl⟩

/-- Witness of `receive_safe_iff`: the frame of DONE with the body `k NUL v NUL`. -/
theorem receive_safe_iff_witness :
    receive (ReadEv.dgram
        [71, 105, 114, 68, 0, 0, 0, 4, 68, 79, 78, 69, 0, 0, 0, 0, 107, 0, 118, 0])
      ≠ Recv.panic :=
  (receive_safe_iff
    [71, 105, 114, 68, 0, 0, 0, 4, 68, 79, 78, 69, 0, 0, 0, 0, 107, 0, 118, 0] 4
    (by rw [recvBuf_eq _ (by decide)]; decide)
    (by rw [recvBuf_eq _ (by decide)]; decide)).1.mpr
    ⟨by rw [recvBuf_eq _ (by decide)]; decide, by decide⟩

/-! ## Control channel: state machine -/

/-- C3: on a connection in state `Ready` whose `Write` succeeds, `Invoke` sends INVOKE
and moves to `Processing` (that is where it waits when no frame comes), and the first
frame `receive` accepts decides the call: DONE gives `Ready` and nil, ERROR gives `Error`
and nil, FAULT gives `Fault` and nil, any other command gives `UnknownCommand`. Hence,
when `Invoke` returns nil the state is `Ready`, `Error` or `Fault`, and it is `Ready`
exactly when DONE was received. -/
theorem Invoke_first_frame_decides (c : ControlConn) (order : List KV)
    (hst : c.state = stateReady) (hw : c.werr = none) :
    (c.inbox = [] →
      c.Invoke order = (Outcome.blocked,
        { c with state := stateProcessing, sent := c.sent ++ [send cmdInvoke order] }))
    ∧ ∀ (ev : ReadEv) (rest : List ReadEv) (cmd : Bytes) (a : Option StrMap),
      c.inbox = ev :: rest → receive ev = Recv.ok cmd a →
        (c.Invoke order).2.sent = c.sent ++ [send cmdInvoke order]
        ∧ (c.Invoke order).2.inbox = rest
        ∧ (cmd = cmdDone →
            (c.Invoke order).1 = Outcome.ret none ∧ (c.Invoke order).2.state = stateReady)
        ∧ (cmd = cmdError →
            (c.Invoke order).1 = Outcome.ret none ∧ (c.Invoke order).2.state = stateError)
        ∧ (cmd = cmdFault →
            (c.Invoke order).1 = Outcome.ret none ∧ (c.Invoke order).2.state = stateFault)
        ∧ (cmd ≠ cmdDone → cmd ≠ cmdError → cmd ≠ cmdFault →
            (c.Invoke order).1 = Outcome.ret (some errUnknownCommand)
              ∧ (c.Invoke order).2.state = stateProcessing)
        ∧ ((c.Invoke order).1 = Outcome.ret none →
            ((c.Invoke order).2.state = stateReady ∨ (c.Invoke order).2.state = stateError
              ∨ (c.Invoke order).2.state = stateFault)
            ∧ ((c.Invoke order).2.state = stateReady ↔ cmd = cmdDone)) := by
  constructor
  · intro hin
    simp [ControlConn.Invoke, hst, hw, hin, invokeLoop]
  · intro ev rest cmd a hin hev
    have hInv : c.Invoke order =
        ((invokeLoop stateProcessing (ev :: rest)).1,
          { c with state := (invokeLoop stateProcessing (ev :: rest)).2.1,
                   sent := c.sent ++ [send cmdInvoke order],
                   inbox := (invokeLoop stateProcessing (ev :: rest)).2.2 }) := by
      simp [ControlConn.Invoke, hst, hw, hin]
    rw [hInv]
    simp only [invokeLoop, hev]
    by_cases h1 : cmd = cmdDone
    · subst h1
      simp [cmdDone, cmdError, cmdFault]
    · by_cases h2 : cmd = cmdError
      · subst h2
        simp [cmdDone, cmdError, cmdFault]
      · by_cases h3 : cmd = cmdFault
        · subst h3
          simp [cmdDone, cmdError, cmdFault]
        · simp [h1, h2, h3]

/-- Witness of `Invoke_first_frame_decides`: a `Ready` connection that receives DONE. -/
theorem Invoke_first_frame_decides_witness :
    (ControlConn.Invoke ⟨stateReady, none, [], [ReadEv.dgram (send cmdDone [])]⟩ []).1
        = Outcome.ret none
      ∧ (ControlConn.Invoke ⟨stateReady, none, [], [ReadEv.dgram (send cmdDone [])]⟩ []).2.state
        = stateReady :=
  ((Invoke_first_frame_decides ⟨stateReady, none, [], [ReadEv.dgram (send cmdDone [])]⟩ []
      rfl rfl).2 (ReadEv.dgram (send cmdDone [])) [] cmdDone none rfl
      (receive_send_nil cmdDone (by decide) (by decide))).2.2.1 rfl

/-- C4: in every control state other than `Ready`, `Invoke` returns `HandlerBusy` and
leaves the connection as it was: no frame sent, none read, state unchanged. Therefore
every later `Invoke` is refused as well: a worker left in `Error` or `Fault` is never
invoked again, and no `Invoke` begins while the state is `Processing`. -/
theorem Invoke_busy_unless_ready (c : ControlConn) (order : List KV)
    (hst : c.state ≠ stateReady) :
    c.Invoke order = (Outcome.ret (some errHandlerBusy), c)
      ∧ ∀ orders : List (List KV),
          c.Invokes orders = (orders.map (fun _ => Outcome.ret (some errHandlerBusy)), c) := by
  have h1 : ∀ o : List KV, c.Invoke o = (Outcome.ret (some errHandlerBusy), c) := by
    intro o
    simp [ControlConn.Invoke, hst]
  refine ⟨h1 order, ?_⟩
  intro orders
  induction orders with
  | nil => rfl
  | cons o more ih => simp only [ControlConn.Invokes, h1 o, ih, List.map_cons]

/-- Witness of `Invoke_busy_unless_ready`: a connection left in state `Error`, with a
frame pending. -/
theorem Invoke_busy_unless_ready_witness :
    ControlConn.Invoke ⟨stateError, none, [], [ReadEv.dgram (send cmdDone [])]⟩ []
        = (Outcome.ret (some errHandlerBusy),
            ⟨stateError, none, [], [ReadEv.dgram (send cmdDone [])]⟩)
      ∧ ∀ orders : List (List KV),
          ControlConn.Invokes ⟨stateError, none, [], [ReadEv.dgram (send cmdDone [])]⟩ orders
            = (orders.map (fun _ => Outcome.ret (some errHandlerBusy)),
                ⟨stateError, none, [], [ReadEv.dgram (send cmdDone [])]⟩) :=
  Invoke_busy_unless_ready ⟨stateError, none, [], [ReadEv.dgram (send cmdDone [])]⟩ []
    (by decide)

/-- C5 (amended): when `Write` succeeds, `init` sends START and runs the read loop from
state `Starting`. In the loop, RUNNING received in `Starting` moves to `Initializing`;
DONE received in `Initializing` moves to `Ready` and `init` returns nil; FAULT in any
state returns `ControlFault`; every command other than RUNNING, DONE and FAULT (ERROR
included) returns `UnknownCommand`; a RUNNING received in another state than `Starting`
and a DONE received in another state than `Initializing` are skipped: the state stays and
the next frame is read. `init` returns nil only with final state `Ready`. -/
theorem init_handshake (c : ControlConn) (order : List KV) (hw : c.werr = none) :
    (c.inbox = [] →
      c.init order = (Outcome.blocked,
        { c with state := stateStarting, sent := c.sent ++ [send cmdStart order] }))
    ∧ c.init order = ((initLoop stateStarting c.inbox).1,
        { c with state := (initLoop stateStarting c.inbox).2.1,
                 sent := c.sent ++ [send cmdStart order],
                 inbox := (initLoop stateStarting c.inbox).2.2 })
    ∧ (∀ (st : state) (ev : ReadEv) (rest : List ReadEv) (cmd : Bytes) (a : Option StrMap),
        receive ev = Recv.ok cmd a →
          (cmd = cmdRunning → st = stateStarting →
            initLoop st (ev :: rest) = initLoop stateInitializing rest)
          ∧ (cmd = cmdRunning → st ≠ stateStarting →
            initLoop st (ev :: rest) = initLoop st rest)
          ∧ (cmd = cmdDone → st = stateInitializing →
            initLoop st (ev :: rest) = (Outcome.ret none, stateReady, rest))
          ∧ (cmd = cmdDone → st ≠ stateInitializing →
            initLoop st (ev :: rest) = initLoop st rest)
          ∧ (cmd = cmdFault →
            initLoop st (ev :: rest) = (Outcome.ret (some errControlFault), st, rest))
          ∧ (cmd ≠ cmdRunning → cmd ≠ cmdDone → cmd ≠ cmdFault →
            initLoop st (ev :: rest) = (Outcome.ret (some errUnknownCommand), st, rest)))
    ∧ ((c.init order).1 = Outcome.ret none → (c.init order).2.state = stateReady) := by
  have hinit : c.init order = ((initLoop stateStarting c.inbox).1,
        { c with state := (initLoop stateStarting c.inbox).2.1,
                 sent := c.sent ++ [send cmdStart order],
                 inbox := (initLoop stateStarting c.inbox).2.2 }) := by
    simp [ControlConn.init, hw]
  refine ⟨?_, hinit, ?_, ?_⟩
  · intro hin
    rw [hinit, hin]
    simp [initLoop, hin]
  · intro st ev rest cmd a hev
    rw [initLoop_ok st ev rest cmd a hev]
    refine ⟨?_, ?_, ?_, ?_, ?_, ?_⟩
    · intro h1 h2; simp [h1, h2]
    · intro h1 h2; simp [h1, h2]
    · intro h1 h2; subst h1; simp [h2, cmdDone, cmdRunning]
    · intro h1 h2; subst h1; simp [h2, cmdDone, cmdRunning]
    · intro h1; subst h1; simp [cmdFault, cmdDone, cmdRunning]
    · intro h1 h2 h3; simp [h1, h2, h3]
  · rw [hinit]
    exact initLoop_nil_ready c.inbox stateStarting

/-- Witness of `init_handshake`: a new connection on which nothing has arrived yet. -/
theorem init_handshake_witness :
    ControlConn.init ⟨stateStarting, none, [], []⟩ []
      = (Outcome.blocked, ⟨stateStarting, none, [] ++ [send cmdStart []], []⟩) :=
  (init_handshake ⟨stateStarting, none, [], []⟩ [] rfl).1 rfl

/-- C5 as stated fails: a DONE received while still `Starting` does not make `init`
return `UnknownCommand`. On the frames DONE, RUNNING, DONE the first DONE is skipped and
`init` returns nil in state `Ready`. -/
theorem init_skips_early_done :
    (ControlConn.init ⟨stateStarting, none, [],
        [ReadEv.dgram (send cmdDone []), ReadEv.dgram (send cmdRunning []),
          ReadEv.dgram (send cmdDone [])]⟩ []).1 = Outcome.ret none
    ∧ (ControlConn.init ⟨stateStarting, none, [],
        [ReadEv.dgram (send cmdDone []), ReadEv.dgram (send cmdRunning []),
          ReadEv.dgram (send cmdDone [])]⟩ []).2.state = stateReady
    ∧ (ControlConn.init ⟨stateStarting, none, [],
        [ReadEv.dgram (send cmdDone []), ReadEv.dgram (send cmdRunning []),
          ReadEv.dgram (send cmdDone [])]⟩ []).1 ≠ Outcome.ret (some errUnknownCommand) := by
  have hD := receive_send_nil cmdDone (by decide) (by decide)
  have hR := receive_send_nil cmdRunning (by decide) (by decide)
  have h : initLoop stateStarting
      [ReadEv.dgram (send cmdDone []), ReadEv.dgram (send cmdRunning []),
        ReadEv.dgram (send cmdDone [])] = (Outcome.ret none, stateReady, []) := by
    rw [initLoop_ok _ _ _ _ _ hD, if_neg (by decide), if_pos rfl, if_neg (by decide),
      initLoop_ok _ _ _ _ _ hR, if_pos rfl, if_pos rfl,
      initLoop_ok _ _ _ _ _ hD, if_neg (by decide), if_pos rfl, if_pos rfl]
  simp [ControlConn.init, h]

/-- C6 (amended): a datagram whose first four bytes, read big-endian, differ from
0x47697244 makes `receive` return `InvalidMagic`, with no command and no map, and the
two read loops return that error with the control state they had when the datagram was
read. The control state is therefore not the one before the call: `Invoke`, entered in
`Ready`, returns in `Processing`, and `init` returns in the state the handshake had
reached (`Starting` when the datagram is the first one). -/
theorem bad_magic_is_InvalidMagic (d : Bytes)
    (hm : beUint32 ((recvBuf d).take 4) ≠ some magic) :
    receive (ReadEv.dgram d) = Recv.err errInvalidMagic
    ∧ (∀ (st : state) (rest : List ReadEv),
        invokeLoop st (ReadEv.dgram d :: rest) = (Outcome.ret (some errInvalidMagic), st, rest))
    ∧ (∀ (st : state) (rest : List ReadEv),
        initLoop st (ReadEv.dgram d :: rest) = (Outcome.ret (some errInvalidMagic), st, rest))
    ∧ (∀ (c : ControlConn) (order : List KV) (rest : List ReadEv),
        c.state = stateReady → c.werr = none → c.inbox = ReadEv.dgram d :: rest →
          c.Invoke order = (Outcome.ret (some errInvalidMagic),
            { c with state := stateProcessing, sent := c.sent ++ [send cmdInvoke order],
                     inbox := rest }))
    ∧ (∀ (c : ControlConn) (order : List KV) (rest : List ReadEv),
        c.werr = none → c.inbox = ReadEv.dgram d :: rest →
          c.init order = (Outcome.ret (some errInvalidMagic),
            { c with state := stateStarting, sent := c.sent ++ [send cmdStart order],
                     inbox := rest })) := by
  have hr := receive_bad_magic d hm
  refine ⟨hr, fun st rest => invokeLoop_err st _ rest _ hr,
    fun st rest => initLoop_err st _ rest _ hr, ?_, ?_⟩
  · intro c order rest hst hw hin
    simp [ControlConn.Invoke, hst, hw, hin, invokeLoop_err _ _ rest _ hr]
  · intro c order rest hw hin
    simp [ControlConn.init, hw, hin, initLoop_err _ _ rest _ hr]

/-- Witness of `bad_magic_is_InvalidMagic`: the four bytes "GirE". -/
theorem bad_magic_is_InvalidMagic_witness :
    receive (ReadEv.dgram [71, 105, 114, 69]) = Recv.err errInvalidMagic :=
  (bad_magic_is_InvalidMagic [71, 105, 114, 69]
    (by rw [recvBuf_take4 _ _ _ _ _ (by decide)]; decide)).1

/-- C6 as stated fails for the `Invoke` that was reading: entered in state `Ready`, it
returns `InvalidMagic` in state `Processing`. -/
theorem Invoke_bad_magic_state_changed :
    (ControlConn.Invoke ⟨stateReady, none, [], [ReadEv.dgram [71, 105, 114, 69]]⟩ []).1
        = Outcome.ret (some errInvalidMagic)
    ∧ (ControlConn.Invoke ⟨stateReady, none, [], [ReadEv.dgram [71, 105, 114, 69]]⟩ []).2.state
        = stateProcessing
    ∧ (ControlConn.Invoke ⟨stateReady, none, [], [ReadEv.dgram [71, 105, 114, 69]]⟩ []).2.state
        ≠ (⟨stateReady, none, [], [ReadEv.dgram [71, 105, 114, 69]]⟩ : ControlConn).state := by
  have hr : receive (ReadEv.dgram [71, 105, 114, 69]) = Recv.err errInvalidMagic :=
    receive_bad_magic _ (by rw [recvBuf_take4 _ _ _ _ _ (by decide)]; decide)
  simp [ControlConn.Invoke, invokeLoop_err _ _ [] _ hr]

/-! ## Shared region -/

/-- C2 (failing input): with the response-length header `0xFFFFFFFF` in the trailing
four bytes, the sum `bodyBegin + header` wraps to 7 in `uint32`, so `Response` does not
return the slice of length `min(h, 6291556)`: the slice expression `mmap[8:7]` panics. -/
theorem Response_header_wraps :
    leUint32 (fun i => if debugEnd ≤ i then 255 else 0) debugEnd = 4294967295
      ∧ shmem.Response ⟨fun i => if debugEnd ≤ i then 255 else 0, 0⟩ = none := by
  decide

/-- C8: with the write cursor `off` in `[0, 6291556]`, `Write(data)` copies exactly
`n = min(len(data), 6291556 - off)` bytes of `data` to `[8+off, 8+off+n)`, returns `n`
without failing, moves the cursor to `off+n ≤ 6291556`, stores `off+n` little-endian in
`[0..4)` and changes no byte outside `[0..4)` and the copied range; hence every sequence
of `Write`s completes, keeps the cursor in the body slot and leaves the debug-length
header `[4..8)`, the debug region and the trailing response-length word untouched. -/
theorem Write_clips_at_body_slot (s : shmem) (data : Bytes) (o : Nat)
    (ho : s.off = (o : Int)) (hle : o ≤ bodyMax) :
    ∃ s1 : shmem,
      s.Write data = some (min data.length (bodyMax - o), s1)
      ∧ s1.off = ((o + min data.length (bodyMax - o) : Nat) : Int)
      ∧ o + min data.length (bodyMax - o) ≤ bodyMax
      ∧ (∀ i, i < min data.length (bodyMax - o) → data[i]? = some (s1.mmap (bodyBegin + o + i)))
      ∧ leUint32 s1.mmap 0 = o + min data.length (bodyMax - o)
      ∧ (∀ j, 4 ≤ j →
          ¬ (bodyBegin + o ≤ j ∧ j < bodyBegin + o + min data.length (bodyMax - o)) →
          s1.mmap j = s.mmap j)
      ∧ (∀ j, (4 ≤ j ∧ j < 8) ∨ debugBegin ≤ j → s1.mmap j = s.mmap j)
      ∧ ∀ datas : List Bytes, ∃ s2 : shmem, s.Writes datas = some s2
          ∧ 0 ≤ s2.off ∧ s2.off ≤ (bodyMax : Int)
          ∧ ∀ j, (4 ≤ j ∧ j < 8) ∨ debugBegin ≤ j → s2.mmap j = s.mmap j := by
  have hw := Write_eq s data o ho hle
  refine ⟨_, hw, rfl, by omega, ?_, ?_, ?_, ?_, ?_⟩
  · intro i hi
    dsimp only
    rw [lePutUint32_other _ _ _ _ (Or.inr (by unfold bodyBegin; omega))]
    simp only [bodyBegin]
    rw [if_pos (by omega), show 8 + o + i - (8 + o) = i by omega]
    have hlt : i < data.length := by omega
    simp [List.getD, List.getElem?_eq_getElem hlt]
  · exact leUint32_lePutUint32 _ 0 _ (by unfold bodyMax at hle ⊢; omega)
  · intro j h4 hj
    exact Write_frame s _ data o _ ho hle hw j h4 (by simpa [bodyBegin] using hj)
  · intro j hj
    refine Write_frame s _ data o _ ho hle hw j (by unfold debugBegin at hj; omega) ?_
    unfold debugBegin at hj
    omega
  · intro datas
    obtain ⟨s2, o2, h1, h2, h3, h4⟩ := Writes_inv datas s o ho hle
    refine ⟨s2, h1, by omega, by omega, ?_⟩
    intro j hj
    exact h4 j (by simpa [bodyEnd, debugBegin] using hj)

/-- Witness of `Write_clips_at_body_slot`: three bytes written to a fresh region. -/
theorem Write_clips_at_body_slot_witness :
    ∃ s1 : shmem,
      shmem.Write ⟨fun _ => 0, 0⟩ [1, 2, 3] = some (min [1, 2, 3].length (bodyMax - 0), s1)
      ∧ s1.off = ((0 + min [1, 2, 3].length (bodyMax - 0) : Nat) : Int)
      ∧ 0 + min [1, 2, 3].length (bodyMax - 0) ≤ bodyMax
      ∧ (∀ i, i < min [1, 2, 3].length (bodyMax - 0) →
          ([1, 2, 3] : Bytes)[i]? = some (s1.mmap (bodyBegin + 0 + i)))
      ∧ leUint32 s1.mmap 0 = 0 + min [1, 2, 3].length (bodyMax - 0)
      ∧ (∀ j, 4 ≤ j →
          ¬ (bodyBegin + 0 ≤ j ∧ j < bodyBegin + 0 + min [1, 2, 3].length (bodyMax - 0)) →
          s1.mmap j = (0 : Byte))
      ∧ (∀ j, (4 ≤ j ∧ j < 8) ∨ debugBegin ≤ j → s1.mmap j = (0 : Byte))
      ∧ ∀ datas : List Bytes, ∃ s2 : shmem, shmem.Writes ⟨fun _ => 0, 0⟩ datas = some s2
          ∧ 0 ≤ s2.off ∧ s2.off ≤ (bodyMax : Int)
          ∧ ∀ j, (4 ≤ j ∧ j < 8) ∨ debugBegin ≤ j → s2.mmap j = (0 : Byte) :=
  Write_clips_at_body_slot ⟨fun _ => 0, 0⟩ [1, 2, 3] 0 rfl (by decide)

/-- C12: after `Reset` the request-length header `[0..4)` and the debug-length header
`[4..8)` read zero, the write cursor is zero and no byte from offset 8 on has changed;
`Reset` followed by `Reset` is the same as one `Reset`; and a `Write` of `data` after
`Reset` returns `min(len(data), 6291556)`, places that many bytes of `data` from offset 8
on and stores that number in the request-length header. -/
theorem Reset_clears_headers (s : shmem) :
    leUint32 s.Reset.mmap 0 = 0
    ∧ leUint32 s.Reset.mmap 4 = 0
    ∧ s.Reset.off = 0
    ∧ (∀ j, 8 ≤ j → s.Reset.mmap j = s.mmap j)
    ∧ s.Reset.Reset = s.Reset
    ∧ ∀ data : Bytes, ∃ s1 : shmem,
        s.Reset.Write data = some (min data.length bodyMax, s1)
        ∧ (∀ i, i < min data.length bodyMax → data[i]? = some (s1.mmap (bodyBegin + i)))
        ∧ leUint32 s1.mmap 0 = min data.length bodyMax
        ∧ s1.off = ((min data.length bodyMax : Nat) : Int) := by
  refine ⟨?_, ?_, rfl, ?_, Reset_Reset s, ?_⟩
  · simp only [shmem.Reset, leUint32, lePutUint32, toByte]
    norm_num
  · exact leUint32_lePutUint32 _ 4 0 (by norm_num)
  · intro j hj
    simp only [shmem.Reset]
    rw [lePutUint32_other _ _ _ _ (Or.inr (by omega)),
      lePutUint32_other _ _ _ _ (Or.inr (by omega))]
  · intro data
    have hw := Write_eq s.Reset data 0 rfl (Nat.zero_le _)
    simp only [Nat.sub_zero, Nat.zero_add, Nat.add_zero] at hw
    refine ⟨_, hw, ?_, ?_, rfl⟩
    · intro i hi
      dsimp only
      rw [lePutUint32_other _ _ _ _ (Or.inr (by unfold bodyBegin; omega))]
      simp only [bodyBegin]
      rw [if_pos (by omega), show 8 + i - 8 = i by omega]
      have hlt : i < data.length := by omega
      simp [List.getD, List.getElem?_eq_getElem hlt]
    · exact leUint32_lePutUint32 _ 0 _ (by unfold bodyMax; omega)

/-- Witness of `Reset_clears_headers`: a region full of `0xFF` with the cursor at 7. -/
theorem Reset_clears_headers_witness :
    leUint32 (shmem.Reset ⟨fun _ => 255, 7⟩).mmap 0 = 0
      ∧ (shmem.Reset ⟨fun _ => 255, 7⟩).mmap 8 = 255 :=
  ⟨(Reset_clears_headers ⟨fun _ => 255, 7⟩).1,
    (Reset_clears_headers ⟨fun _ => 255, 7⟩).2.2.2.1 8 (by decide)⟩

/-- C13 (failing input): with the debug-length header `0xFFFFFFFF` in `[4..8)`, the sum
`debugBegin + header` wraps to 6291563 in `uint32`, which is below `debugBegin`, so
`Debug` does not return the slice of length `min(d, 102968)`: the slice expression
`mmap[6291564:6291563]` panics. -/
theorem Debug_header_wraps :
    leUint32 (fun i => if 4 ≤ i ∧ i < 8 then 255 else 0) 4 = 4294967295
      ∧ shmem.Debug ⟨fun i => if 4 ≤ i ∧ i < 8 then 255 else 0, 0⟩ = none := by
  decide

/-- C14: zero-fill by doubling. For every buffer of length `n ≥ 1`, whatever it holds,
setting byte 0 to zero and then, for `bp = 1, 2, 4, …` while `bp < n`, copying the
prefix `[0..bp)` onto the region starting at `bp` (clipped at the end of the buffer)
returns (the function is total) and leaves the buffer of the same length with every
byte zero, as byte-wise zeroing does. -/
theorem zeroFill_zeroes (mmap : Bytes) (hn : 1 ≤ mmap.length) :
    zeroFill mmap = some (List.replicate mmap.length 0)
      ∧ zeroFill mmap = some (mmap.map (fun _ => 0)) := by
  have h : zeroFill mmap = some (List.replicate mmap.length 0) := by
    match mmap, hn with
    | b :: t, _ =>
      simp only [zeroFill, Option.some.injEq]
      have := zeroLoop_zero ((0 :: t).length - 1) (0 :: t) 1 Nat.one_pos rfl
        (by simp [List.replicate])
      simpa using this
  refine ⟨h, ?_⟩
  rw [h]
  congr 1
  exact (List.map_const' mmap 0).symm

/-- Witness of `zeroFill_zeroes`: a buffer of five bytes, not a power of two. -/
theorem zeroFill_zeroes_witness :
    zeroFill [9, 8, 7, 6, 5] = some (List.replicate [9, 8, 7, 6, 5].length 0)
      ∧ zeroFill [9, 8, 7, 6, 5] = some ([9, 8, 7, 6, 5].map (fun _ => 0)) :=
  zeroFill_zeroes [9, 8, 7, 6, 5] (by decide)

/-! ## Jail and worker -/

/-- C18: on a worker whose process was started, `Function.Close` runs, in this order,
`Freezer.Close` (thaw, close of the configuration, wrapper, cgroup-state and jail-binary
files, removal of the cgroup directory, tried a second time when it fails), the close of
the shared region, the close of the control socket, the kill and a final thaw. After it
the four files of the jail and the file of the shared region are closed, the control
socket is closed, the process is killed when the kill goes through, the directory is
removed when a removal goes through, and the state file holds the `THAWED` of the first
thaw only: the final thaw writes to the state file `Freezer.Close` has closed, so
`Function.Close` returns the error of a closed file, whatever the other steps return.
Hence `Purge`, on a free list with such a worker on top, closes that worker only,
returns the error and leaves the workers below it on the list. -/
theorem Function.Close_always_fails (rm1 rm2 : Option Nat) (f : Function) (ch : Child)
    (hp : f.fz.Process = some ch) :
    ∃ f1 : Function,
      Function.Close rm1 rm2 f = some (some errClosed, f1)
      ∧ f1.fz.config.closed = true ∧ f1.fz.wrapper.closed = true
      ∧ f1.fz.state.closed = true ∧ f1.fz.nsjail.closed = true
      ∧ f1.shmFile.closed = true ∧ f1.controlClosed = true
      ∧ (f.killErr = none → f1.killed = true)
      ∧ (rm1 = none ∨ rm2 = none → f1.fz.dirRemoved = true)
      ∧ (f.fz.state.closed = false → f.fz.state.writeErr = none →
          f1.fz.state.written = f.fz.state.written ++ ["THAWED"])
      ∧ f1.fz.trace
          = f.fz.trace ++ [Step.thaw, Step.closeConfig, Step.closeWrapper, Step.closeState,
              Step.closeNsjail]
            ++ (if rm1.isNone then [Step.removeDir] else [Step.removeDir, Step.removeDir])
            ++ [Step.closeShmem, Step.closeControl, Step.kill, Step.thaw]
      ∧ ∀ (Close : Function → Option Err) (p : FunctionPool Function) (below : List Function),
          (∀ r, Function.Close rm1 rm2 f = some r → Close f = r.1) →
          p.freeFunction = below ++ [f] →
          FunctionPool.Purge Close p
              = (Outcome.ret (some errClosed),
                  { p with freeFunction := below, closed := p.closed ++ [f] })
            ∧ below.length = p.freeFunction.length - 1 := by
  have hsnd := Freezer.Close_snd rm1 rm2 f.fz
  have hstc : ((f.fz.state.WriteString "THAWED").2.Close).2.closed = true :=
    File.Close_closed _
  have hsome : ∃ r, Function.Close rm1 rm2 f = some r := by
    unfold Function.Close
    simp only [Function.closeShmem, Function.closeControl, hsnd, hp]
    exact ⟨_, rfl⟩
  obtain ⟨r, hr⟩ := hsome
  have key : r.1 = some errClosed
      ∧ r.2.fz.config.closed = true ∧ r.2.fz.wrapper.closed = true
      ∧ r.2.fz.state.closed = true ∧ r.2.fz.nsjail.closed = true
      ∧ r.2.shmFile.closed = true ∧ r.2.controlClosed = true
      ∧ (f.killErr = none → r.2.killed = true)
      ∧ (rm1 = none ∨ rm2 = none → r.2.fz.dirRemoved = true)
      ∧ (f.fz.state.closed = false → f.fz.state.writeErr = none →
          r.2.fz.state.written = f.fz.state.written ++ ["THAWED"])
      ∧ r.2.fz.trace
          = f.fz.trace ++ [Step.thaw, Step.closeConfig, Step.closeWrapper, Step.closeState,
              Step.closeNsjail]
            ++ (if rm1.isNone then [Step.removeDir] else [Step.removeDir, Step.removeDir])
            ++ [Step.closeShmem, Step.closeControl, Step.kill, Step.thaw] := by
    unfold Function.Close at hr
    simp only [Function.closeShmem, Function.closeControl, hsnd, hp, Option.some.injEq] at hr
    subst hr
    refine ⟨?_, ?_, ?_, ?_, ?_, ?_, ?_, ?_, ?_, ?_, ?_⟩
    · simp only [Function.kill, Function.Thaw, Freezer.Thaw,
        File.WriteString_closed _ _ hstc, lastErr_some]
    · simp [Function.kill, Function.Thaw, Freezer.Thaw, File.WriteString_closed _ _ hstc,
        File.Close_closed]
    · simp [Function.kill, Function.Thaw, Freezer.Thaw, File.WriteString_closed _ _ hstc,
        File.Close_closed]
    · simp [Function.kill, Function.Thaw, Freezer.Thaw, File.WriteString_closed _ _ hstc,
        File.Close_closed]
    · simp [Function.kill, Function.Thaw, Freezer.Thaw, File.WriteString_closed _ _ hstc,
        File.Close_closed]
    · simp [Function.kill, Function.Thaw, Freezer.Thaw, File.WriteString_closed _ _ hstc,
        File.Close_closed]
    · simp [Function.kill, Function.Thaw, Freezer.Thaw]
    · intro hk
      simp [Function.kill, Function.Thaw, Freezer.Thaw, hk]
    · intro hrm
      simp only [Function.kill, Function.Thaw, Freezer.Thaw,
        File.WriteString_closed _ _ hstc]
      rcases hrm with h | h <;> simp [h]
    · intro hc hw
      simp only [Function.kill, Function.Thaw, Freezer.Thaw,
        File.WriteString_closed _ _ hstc]
      simp [File.WriteString, File.Close, hc, hw]
    · simp [Function.kill, Function.Thaw, Freezer.Thaw, File.WriteString_closed _ _ hstc]
  obtain ⟨k1, k2⟩ := key
  refine ⟨r.2, ?_, ?_⟩
  · rw [hr, ← k1]
  · obtain ⟨a1, a2, a3, a4, a5, a6, a7, a8, a9, a10⟩ := k2
    refine ⟨a1, a2, a3, a4, a5, a6, a7, a8, a9, a10, ?_⟩
    intro Close p below hC hL
    have h1 : Function.Close rm1 rm2 f = some (some errClosed, r.2) := by rw [hr, ← k1]
    refine ⟨Purge_top_fails Close p below f errClosed hL (hC _ h1), ?_⟩
    rw [hL]
    simp

/-- Witness of `Function.Close_always_fails`: a started worker on which every system
call succeeds. -/
theorem Close_always_fails_witness :
    ∃ f1 : Function, Function.Close none none (sampleWorker []) = some (some errClosed, f1)
      ∧ f1.fz.state.closed = true ∧ f1.killed = true :=
  (Function.Close_always_fails none none (sampleWorker []) _ rfl).imp
    (fun _ h => ⟨h.1, h.2.2.2.1, h.2.2.2.2.2.2.2.1 rfl⟩)

/-- C15 (amended): a jail built by `NewFreezer(name, args...)`, whose public fields
`Env`, `ExtraFiles`, `Dir` and `Chroot` the caller may then set, is started (with
the default `configure`, the configuration file taking the write and the wrapper file
open) with argv `["nsjail", "--quiet", "--config", "/proc/<host pid>/fd/<config fd>", "--",
name]` followed by `args` in their order and with the exec path
`/proc/<host pid>/fd/<wrapper fd>`. `Start` clears the fields `Dir` and `Env` (to the
empty string and nil), so the child is started in the working directory and with the
environment of the host; the environment set before `Start` is the one in the
configuration serialized to the configuration file. A second `Start`, and any `Start`
on a jail whose process exists, returns an error and changes nothing. -/
theorem Start_argv (r : Resources) (name : String) (args : List String)
    (env : Option (List String)) (extra : List File) (dir chroot : String)
    (marshal : NsJailConfig → String) (host : Host) (pid : Nat)
    (f0 : Freezer) (h0 : NewFreezer (Except.ok r) name args = Except.ok f0)
    (hopen : r.config.closed = false) (hw : r.config.writeErr = none)
    (hwrap : r.wrapper.closed = false) :
    (Freezer.Start configure marshal host (Except.ok pid)
        { f0 with Env := env, ExtraFiles := extra, Dir := dir, Chroot := chroot }).1
      = Outcome.ret none
    ∧ (Freezer.Start configure marshal host (Except.ok pid)
        { f0 with Env := env, ExtraFiles := extra, Dir := dir, Chroot := chroot }).2.Args
      = ["nsjail", "--quiet", "--config",
          "/proc/" ++ toString r.hostPid ++ "/fd/" ++ toString r.config.fd, "--", name] ++ args
    ∧ (Freezer.Start configure marshal host (Except.ok pid)
        { f0 with Env := env, ExtraFiles := extra, Dir := dir, Chroot := chroot }).2.Path
      = "/proc/" ++ toString r.hostPid ++ "/fd/" ++ toString r.wrapper.fd
    ∧ (Freezer.Start configure marshal host (Except.ok pid)
        { f0 with Env := env, ExtraFiles := extra, Dir := dir, Chroot := chroot }).2.Dir = ""
    ∧ (Freezer.Start configure marshal host (Except.ok pid)
        { f0 with Env := env, ExtraFiles := extra, Dir := dir, Chroot := chroot }).2.Env = none
    ∧ (Freezer.Start configure marshal host (Except.ok pid)
        { f0 with Env := env, ExtraFiles := extra, Dir := dir, Chroot := chroot }).2.Process
      = some
          { pid := pid,
            path := "/proc/" ++ toString r.hostPid ++ "/fd/" ++ toString r.wrapper.fd,
            argv := ["nsjail", "--quiet", "--config",
              "/proc/" ++ toString r.hostPid ++ "/fd/" ++ toString r.config.fd, "--", name]
              ++ args,
            env := host.environ,
            dir := host.cwd }
    ∧ (Freezer.Start configure marshal host (Except.ok pid)
        { f0 with Env := env, ExtraFiles := extra, Dir := dir, Chroot := chroot }).2.config.written
      = r.config.written ++ [marshal
          (configure { f0 with Env := env, ExtraFiles := extra, Dir := dir,
                               Chroot := chroot }).1]
    ∧ (configure { f0 with Env := env, ExtraFiles := extra, Dir := dir,
                           Chroot := chroot }).1.envar = env.getD []
    ∧ (∀ (g : Freezer) (Configure : Freezer → NsJailConfig × Freezer)
        (spawn : Except Err Nat), g.Process.isSome = true →
        Freezer.Start Configure marshal host spawn g
          = (Outcome.ret (some errAlreadyStarted), g)) := by
  simp only [NewFreezer, Except.ok.injEq] at h0
  subst h0
  refine ⟨?_, ?_, ?_, ?_, ?_, ?_, ?_, configure_envar _, ?_⟩
  all_goals first
    | (intro g Configure spawn hg
       unfold Freezer.Start
       rw [if_pos hg])
    | (unfold Freezer.Start configure
       dsimp only
       split_ifs <;> simp_all [File.WriteString, procPath, File.Fd])

/-- Witness of `Start_argv`: the jail of `ncat -e /bin/cat`, started by process 77 as
child 100, with the configuration file on descriptor 4 and the wrapper on 6. -/
theorem Start_argv_witness :
    (Freezer.Start configure (fun c => c.hostname) sampleHost (Except.ok 100)
        { Path := "/dev/null", Args := ["/dev/null", "-e", "/bin/cat"], Env := some ["M1=9"],
          Dir := "", ExtraFiles := [freshFile 9], Process := none, Name := "ncat",
          Chroot := "", nsjail := freshFile 5, wrapper := freshFile 6, config := freshFile 4,
          state := freshFile 3, freezerDir := "/sys/fs/cgroup/freezer/gofreezer1",
          dirRemoved := false, hostPid := 77, trace := [] }).2.Args
      = ["nsjail", "--quiet", "--config", "/proc/77/fd/4", "--", "ncat", "-e", "/bin/cat"] :=
  (Start_argv sampleResources "ncat" ["-e", "/bin/cat"] (some ["M1=9"]) [freshFile 9] "" ""
    (fun c => c.hostname) sampleHost 100 _ rfl rfl rfl rfl).2.1

/-- C15 as stated fails: the child is not run with an empty environment. The jail of
`ncat -e /bin/cat` with `Env` set to `M1=9`, started by a host whose environment is
`HOME=/root` and whose directory is `/srv`, leaves `Env` nil after `Start`, and the
child gets the environment and the directory of the host, with the exec path
`/proc/77/fd/6`. -/
theorem Start_child_inherits_host_env :
    (Freezer.Start configure (fun c => c.hostname) sampleHost (Except.ok 100)
        { Path := "/dev/null", Args := ["/dev/null", "-e", "/bin/cat"], Env := some ["M1=9"],
          Dir := "", ExtraFiles := [freshFile 9], Process := none, Name := "ncat",
          Chroot := "", nsjail := freshFile 5, wrapper := freshFile 6, config := freshFile 4,
          state := freshFile 3, freezerDir := "/sys/fs/cgroup/freezer/gofreezer1",
          dirRemoved := false, hostPid := 77, trace := [] }).2.Process
      = some ⟨100, "/proc/77/fd/6",
          ["nsjail", "--quiet", "--config", "/proc/77/fd/4", "--", "ncat", "-e", "/bin/cat"],
          ["HOME=/root"], "/srv"⟩
    ∧ (["HOME=/root"] : List String) ≠ [] := by
  decide

/-! ## Dispatcher -/

/-- C11 (failing input): the handler puts the worker back on every path. A first
request, served by a new worker whose runtime answers ERROR, is answered with the
response slice and leaves that worker on the free list in control state `Error`
(frozen). A second request gets this worker from the free list without a call of the
factory, fails with "invoke failed" and leaves it on the free list in state `Error`
and thawed. -/
theorem handler_puts_back_poisoned_worker :
    (handle errorFactory [] false [[123, 125]] none ⟨[], 0, []⟩).1 = Reply.ok ⟨8, 8⟩
    ∧ poolView (handle errorFactory [] false [[123, 125]] none ⟨[], 0, []⟩).2
        = [(stateError, some "FROZEN")]
    ∧ (handle errorFactory [] false [[123, 125]] none
        (handle errorFactory [] false [[123, 125]] none ⟨[], 0, []⟩).2).1
        = Reply.status500 "invoke failed"
    ∧ poolView (handle errorFactory [] false [[123, 125]] none
        (handle errorFactory [] false [[123, 125]] none ⟨[], 0, []⟩).2).2
        = [(stateError, some "THAWED")]
    ∧ (handle errorFactory [] false [[123, 125]] none
        (handle errorFactory [] false [[123, 125]] none ⟨[], 0, []⟩).2).2.newCalls = 1 := by
  have hE := receive_send_nil cmdError (by decide) (by decide)
  have h1 : (cmdError = cmdDone) = False := by decide
  simp [handle, serve, FunctionPool.Get, FunctionPool.Put, sampleWorker, ioCopy, Function.Write,
    shmem.Write, Function.Thaw, Function.Freeze, Freezer.Thaw, Freezer.Freeze, File.WriteString,
    sampleJail, freshFile, Function.Invoke, ControlConn.Invoke, invokeLoop, hE, h1,
    bodyBegin, bodyEnd, bodyMax, Function.Reset, Response_eq, leUint32, lePutUint32, debugEnd,
    debugMax, toByte, errorFactory, poolView, shmem.Reset]

/-- C16 (amended): the purge trigger, with time in milliseconds and a loop body that
takes no time. A purge is called only by an iteration entered with a positive count,
which resets the count to zero, 200 ms after that iteration armed its timer; every
iteration entered with a positive count arms a new timer, so a signal received before
the timer fires restarts the wait. Hence a burst of signals, each less than 200 ms
after the one before, gives exactly one purge, 200 ms after the last signal, with
the timer armed once per signal; after it the count is zero and the loop waits. -/
theorem purge_debounced (sf : Bool) (t : Nat) (rest : List Nat)
    (hgap : List.Chain (fun x y => x ≤ y ∧ y < x + 200) t rest) :
    debounceRun sf (rest.length + 2) ⟨0, 0, t :: rest, [], []⟩
        = ⟨0, rest.getLastD t + 200, [], t :: rest, [rest.getLastD t + 200]⟩
    ∧ debounceIter sf ⟨0, rest.getLastD t + 200, [], t :: rest, [rest.getLastD t + 200]⟩ = none
    ∧ (∀ d d1 : Debounce, debounceIter sf d = some d1 → d1.purges ≠ d.purges →
        0 < d.needsPurge ∧ d1.needsPurge = 0 ∧ d1.purges = d.purges ++ [d.now + 200])
    ∧ (∀ d d1 : Debounce, debounceIter sf d = some d1 → 0 < d.needsPurge →
        d1.armed = d.armed ++ [d.now]) := by
  refine ⟨?_, ?_, ?_, ?_⟩
  · have hstep : debounceIter sf ⟨0, 0, t :: rest, [], []⟩ = some ⟨1, t, rest, [], []⟩ := by
      simp [debounceIter]
    rw [debounceRun, hstep]
    dsimp only
    rw [debounceRun_burst sf rest t 1 [] [] (by omega) hgap]
    simp
  · simp [debounceIter]
  · intro d d1 h hne
    unfold debounceIter at h
    by_cases hn : 0 < d.needsPurge
    · rw [if_pos hn] at h
      cases hp : d.pending with
      | nil =>
        rw [hp] at h
        simp only [Option.some.injEq] at h
        subst h
        exact ⟨hn, rfl, rfl⟩
      | cons sig more =>
        rw [hp] at h
        dsimp only at h
        split_ifs at h with hc
        · simp only [Option.some.injEq] at h
          subst h
          exact absurd rfl hne
        · simp only [Option.some.injEq] at h
          subst h
          exact ⟨hn, rfl, rfl⟩
    · rw [if_neg hn] at h
      cases hp : d.pending with
      | nil => rw [hp] at h; simp at h
      | cons sig more =>
        rw [hp] at h
        simp only [Option.some.injEq] at h
        subst h
        exact absurd rfl hne
  · intro d d1 h hn
    unfold debounceIter at h
    rw [if_pos hn] at h
    cases hp : d.pending with
    | nil =>
      rw [hp] at h
      simp only [Option.some.injEq] at h
      subst h
      rfl
    | cons sig more =>
      rw [hp] at h
      dsimp only at h
      split_ifs at h with hc
      · simp only [Option.some.injEq] at h
        subst h
        rfl
      · simp only [Option.some.injEq] at h
        subst h
        rfl

/-- Witness of `purge_debounced`: signals at 0, 150 and 300 ms. -/
theorem purge_debounced_witness :
    debounceRun true ([150, 300].length + 2) ⟨0, 0, 0 :: [150, 300], [], []⟩
      = ⟨0, [150, 300].getLastD 0 + 200, [], 0 :: [150, 300],
          [[150, 300].getLastD 0 + 200]⟩ :=
  (purge_debounced true 0 [150, 300] (by simp)).1

/-- C16 as stated fails: with signals at 0 and 150 ms, both within 200 ms of the first,
the timer is armed at 0 and again at 150, and the only purge comes at 350 ms, not at
200 ms; and this whichever way `select` breaks a tie. -/
theorem purge_follows_last_signal :
    (debounceRun true 3 ⟨0, 0, [0, 150], [], []⟩).purges = [350]
    ∧ (debounceRun true 3 ⟨0, 0, [0, 150], [], []⟩).armed = [0, 150]
    ∧ (debounceRun false 3 ⟨0, 0, [0, 150], [], []⟩).purges = [350]
    ∧ (debounceRun false 3 ⟨0, 0, [0, 150], [], []⟩).armed = [0, 150]
    ∧ (debounceRun true 3 ⟨0, 0, [0, 150], [], []⟩).purges ≠ [200] := by
  decide

/-! ## Pool -/

/-- C9: the pool is a LIFO stack. `Put(w)` followed by `Get` returns `w`, does not call
the factory and leaves the pool as it was before the `Put`; `Get` on a free list ending
with `w` returns `w` and removes only it; `Get` on an empty free list returns exactly the
result of the factory (worker or error), calls the factory once and leaves the list
empty. -/
theorem pool_is_lifo {F : Type} (New : Nat → Except Err F) (p : FunctionPool F) :
    (∀ w : F, FunctionPool.Get New (p.Put w) = (some (Except.ok w), p))
    ∧ (∀ (L : List F) (w : F), p.freeFunction = L ++ [w] →
        FunctionPool.Get New p = (some (Except.ok w), { p with freeFunction := L }))
    ∧ (p.freeFunction = [] →
        FunctionPool.Get New p
          = (some (New p.newCalls), { p with freeFunction := [], newCalls := p.newCalls + 1 })) := by
  refine ⟨?_, ?_, ?_⟩
  · intro w
    exact Get_concat New (p.Put w) p.freeFunction w rfl
  · intro L w h
    exact Get_concat New p L w h
  · intro h
    unfold FunctionPool.Get
    simp [h]

/-- Witness of `pool_is_lifo`: worker 3 put on the free list `[1, 2]` and taken back. -/
theorem pool_is_lifo_witness :
    FunctionPool.Get (fun k => Except.ok k) (FunctionPool.Put ⟨[1, 2], 0, []⟩ 3)
      = (some (Except.ok 3), (⟨[1, 2], 0, []⟩ : FunctionPool Nat)) :=
  (pool_is_lifo (fun k => Except.ok k) (⟨[1, 2], 0, []⟩ : FunctionPool Nat)).1 3

/-- C10: `Purge` closes the workers from the top of the stack down. If every `Close`
succeeds it returns nil, the free list is empty and the workers closed are exactly
those of the list, each entry once, top first. If the first failing `Close` is that of
`f`, with `above` on top of it and `below` under it, `Purge` returns that error, `f` and
`above` are off the list and closed, and `below` stays on the list, not closed. On an
empty pool `Purge` calls no `Close`, leaves the pool as it is and returns nil. -/
theorem Purge_closes_top_down {F : Type} (Close : F → Option Err) (p : FunctionPool F) :
    ((∀ f ∈ p.freeFunction, Close f = none) →
      FunctionPool.Purge Close p
        = (Outcome.ret none,
            { p with freeFunction := [], closed := p.closed ++ p.freeFunction.reverse }))
    ∧ (∀ (below above : List F) (f : F) (e : Err),
        p.freeFunction = below ++ f :: above → (∀ g ∈ above, Close g = none) →
        Close f = some e →
        FunctionPool.Purge Close p
          = (Outcome.ret (some e),
              { p with freeFunction := below, closed := p.closed ++ above.reverse ++ [f] }))
    ∧ (p.freeFunction = [] → FunctionPool.Purge Close p = (Outcome.ret none, p)) := by
  refine ⟨?_, ?_, ?_⟩
  · intro hc
    have h := purgeLoop_closes_top Close p.freeFunction [] p (by simp) hc
    simp only [List.nil_append, List.length_nil] at h
    rw [FunctionPool.Purge, h]
    rfl
  · intro below above f e hL hc hf
    have h := purgeLoop_closes_top Close above (below ++ [f]) p (by simp [hL]) hc
    have hlen : p.freeFunction.length = (below ++ [f] ++ above).length := by
      rw [hL]; simp
    have hget : (below ++ [f])[below.length]? = some f := getElem?_concat_length below f
    rw [FunctionPool.Purge, hlen, h, List.length_append, List.length_singleton]
    simp only [purgeLoop, hget, hf, take_append_len below [f] below.length rfl]
  · intro h
    rw [FunctionPool.Purge, h]
    rfl

/-- Witness of `Purge_closes_top_down`: on the free list `[1, 2, 3]` where only the
`Close` of worker 2 fails, worker 3 and worker 2 are closed and worker 1 stays. -/
theorem Purge_closes_top_down_witness :
    FunctionPool.Purge (fun f => if f = 2 then some (errSocket 5) else none)
        (⟨[1, 2, 3], 0, []⟩ : FunctionPool Nat)
      = (Outcome.ret (some (errSocket 5)), ⟨[1], 0, [3, 2]⟩) :=
  (Purge_closes_top_down (fun f => if f = 2 then some (errSocket 5) else none)
    (⟨[1, 2, 3], 0, []⟩ : FunctionPool Nat)).2.1 [1] [3] 2 (errSocket 5) rfl (by decide) rfl

end Subslicer
